import Mathlib

/-!
Verification development for the FLAC3D f3grid codec
(`src/meshio/flac3d/_flac3d.py`).

The Python module is shallowly embedded as executable Lean definitions.
Conventions of the embedding:

* A text line is modelled after `f.readline().rstrip().split()`: a list of
  tokens.  A token (`Tok`) is either a word (`Tok.s`), an integer literal
  (`Tok.i`), or a non-integer numeric literal (`Tok.r`).  `Tok.text` recovers
  the literal text of a token (the Python token is just that string).
  Python `int(tok)` is `intOfTok` (failing on non-integer tokens the way
  `int` raises `ValueError`), Python `float(tok)` is `ratOfTok`.
  Floating point values are modelled as exact rationals; the decimal
  formatting applied on output (`float_fmt`) is abstracted as the identity
  on those rationals (none of the verified properties concerns rounding).
* The rewindable text stream (`f.tell()` / `f.seek()` / `f.readline()`) is
  modelled as a list of lines plus a cursor.  `tell` is the cursor,
  `readline` past the end returns the empty line and leaves the cursor in
  place, exactly like Python returns `""` at EOF; all `seek` targets in the
  source are line starts, so a line-grained cursor is faithful.
* The binary format is modelled at record level: every `numpy.fromfile` /
  `struct.pack` sequence of a record becomes one structured record (counts,
  then fields).  Byte layout is not re-modelled; the record contents and
  their order are.
* Python exceptions become `Except Err`; each constructor of `Err` names the
  Python exception class it stands for.
* Python dicts are insertion-ordered; they are modelled as association
  lists with in-place overwrite (`dictSet`) and first-match lookup
  (`dictGet`), which reproduces both lookup and iteration order.
* Loops whose bound is not structural carry an explicit fuel argument; the
  drivers pass `lines.length + 1`, which is shown sufficient where needed
  (`Err.outOfFuel` is an artefact of the embedding and never names Python
  behaviour).
-/

namespace Flac3d

/-- Python exception classes appearing in the module. -/
inductive Err where
  | readError    -- meshio ReadError
  | writeError   -- meshio WriteError
  | valueError   -- ValueError (failed int()/float(), failed tuple unpacking)
  | keyError     -- KeyError (missing dict key)
  | indexError   -- IndexError (list/array index out of range)
  | nameError    -- NameError (reference to an unbound local variable)
  | outOfFuel    -- embedding artefact: loop fuel exhausted (never reached by drivers)
deriving DecidableEq, Repr

/-- One whitespace-separated token of a text line. -/
inductive Tok where
  | s (w : String)   -- a word token
  | i (n : Int)      -- an integer literal token
  | r (q : ℚ)        -- a non-integer numeric literal token
deriving DecidableEq, Repr

/-- The literal text of a token (in Python every token is just a string). -/
def Tok.text : Tok → String
  | .s w => w
  | .i n => toString n
  | .r q => toString q

/-- A text line after `rstrip().split()`. -/
abbrev Line := List Tok

/-- Python `int(tok)`: integer literals parse, anything else raises `ValueError`. -/
def intOfTok : Tok → Except Err Int
  | .i n => .ok n
  | _ => .error .valueError

/-- Python `float(tok)`: numeric literals parse, words raise `ValueError`. -/
def ratOfTok : Tok → Except Err ℚ
  | .i n => .ok (n : ℚ)
  | .r q => .ok q
  | .s _ => .error .valueError

/-- Insertion-ordered dict update: overwrite in place, or append a new key. -/
def dictSet {α β : Type} [DecidableEq α] : List (α × β) → α → β → List (α × β)
  | [], k, v => [(k, v)]
  | (k₀, v₀) :: rest, k, v =>
    if k = k₀ then (k, v) :: rest else (k₀, v₀) :: dictSet rest k v

/-- Dict lookup (first matching key). -/
def dictGet {α β : Type} [DecidableEq α] : List (α × β) → α → Option β
  | [], _ => none
  | (k₀, v₀) :: rest, k => if k = k₀ then some v₀ else dictGet rest k

/-- Python `set.add` on a set modelled as a duplicate-free list in insertion order. -/
def setAdd {α : Type} [DecidableEq α] (s : List α) (x : α) : List α :=
  if x ∈ s then s else s ++ [x]

/-! ## Type tables (`_flac3d.py` lines 17-71) -/

/-- `meshio_only`: supported meshio cell types and the solid type each maps to. -/
def meshio_only : String → Option String
  | "tetra" => some "tetra"
  | "tetra10" => some "tetra"
  | "pyramid" => some "pyramid"
  | "pyramid13" => some "pyramid"
  | "wedge" => some "wedge"
  | "wedge12" => some "wedge"
  | "wedge15" => some "wedge"
  | "wedge18" => some "wedge"
  | "hexahedron" => some "hexahedron"
  | "hexahedron20" => some "hexahedron"
  | "hexahedron24" => some "hexahedron"
  | "hexahedron27" => some "hexahedron"
  | _ => none

/-- `numnodes_to_meshio_type`: vertex count to cell type tag. -/
def numnodes_to_meshio_type : Nat → Option String
  | 4 => some "tetra"
  | 5 => some "pyramid"
  | 6 => some "wedge"
  | 8 => some "hexahedron"
  | _ => none

/-- `meshio_to_flac3d_type`: cell type tag to FLAC3D type code.
The dict has exactly the four linear solid keys; it is only ever read at
those keys, so the junk default is unreachable. -/
def meshio_to_flac3d_type : String → String
  | "tetra" => "T4"
  | "pyramid" => "P5"
  | "wedge" => "W6"
  | "hexahedron" => "B8"
  | _ => ""

/-- `flac3d_to_meshio_order`: wire order to canonical order permutation (read side).
Only the four linear solid keys exist in the source dict. -/
def flac3d_to_meshio_order : String → List Nat
  | "tetra" => [0, 1, 2, 3]
  | "pyramid" => [0, 1, 4, 2, 3]
  | "wedge" => [0, 1, 3, 2, 4, 5]
  | "hexahedron" => [0, 1, 4, 2, 3, 6, 7, 5]
  | _ => []

/-- `meshio_to_flac3d_order`: primary canonical permutation (write side). -/
def meshio_to_flac3d_order : String → List Nat
  | "tetra" => [0, 1, 2, 3]
  | "pyramid" => [0, 1, 3, 4, 2]
  | "wedge" => [0, 1, 3, 2, 4, 5]
  | "hexahedron" => [0, 1, 3, 4, 2, 7, 5, 6]
  | _ => []

/-- `meshio_to_flac3d_order_2`: alternate (mirrored) permutation (write side). -/
def meshio_to_flac3d_order_2 : String → List Nat
  | "tetra" => [0, 2, 1, 3]
  | "pyramid" => [0, 3, 1, 4, 2]
  | "wedge" => [0, 2, 3, 1, 5, 4]
  | "hexahedron" => [0, 3, 1, 4, 2, 5, 7, 6]
  | _ => []

/-- Numpy fancy indexing `row[perm]` on one row (indices are in range at
every use site; out-of-range reads default to 0 in the model). -/
def applyPerm (perm : List Nat) (row : List Nat) : List Nat :=
  perm.map (fun j => row.getD j 0)

/-! ## Reading points and cells (`_read_point`, `_read_cell`, lines 169-200) -/

/-- `_read_point`, text branch: `pid = int(line[1])`,
`point = [float(l) for l in line[2:]]`. -/
def _read_point_text (line : Line) : Except Err (Int × List ℚ) := do
  let t1 ← match line.get? 1 with
    | some t => Except.ok t
    | none => Except.error Err.indexError
  let pid ← intOfTok t1
  let point ← (line.drop 2).mapM ratOfTok
  return (pid, point)

/-- `point_ids[n]`: vertex-id lookup, `KeyError` on an unknown point id. -/
def lookupVert (point_ids : List (Int × Nat)) (n : Int) : Except Err Nat :=
  match dictGet point_ids n with
  | some idx => .ok idx
  | none => .error .keyError

/-- `point_ids[int(l)]` on one text token. -/
def vertOfTok (point_ids : List (Int × Nat)) (t : Tok) : Except Err Nat := do
  let n ← intOfTok t
  lookupVert point_ids n

/-- `_read_cell`, text branch: `cid = int(line[2])`, vertex tokens are
`line[3:]`, the degenerate marker test is `line[1] == "B7"`; each vertex
token passes through `point_ids[int(l)]`, and a `B7` cell gets its last
vertex duplicated (`cell.append(cell[-1])`). -/
def _read_cell_text (line : Line) (point_ids : List (Int × Nat)) :
    Except Err (Int × List Nat) := do
  let t2 ← match line.get? 2 with
    | some t => Except.ok t
    | none => Except.error Err.indexError
  let cid ← intOfTok t2
  let cell ← (line.drop 3).mapM (vertOfTok point_ids)
  let is_b7 := line.getD 1 (Tok.s "") = Tok.s "B7"
  if is_b7 then
    match cell.getLast? with
    | some v => return (cid, cell ++ [v])
    | none => Except.error Err.indexError
  else
    return (cid, cell)

/-- `_read_cell`, binary branch, at record level: the record supplies
`cid` and `num_verts` vertex ids; `is_b7 = num_verts == 7`, vertex ids are
mapped through `point_ids`, and a 7-vertex cell gets its last vertex
duplicated. -/
def _read_cell_binary (point_ids : List (Int × Nat)) (cid : Int)
    (verts : List Int) : Except Err (Int × List Nat) := do
  let is_b7 := verts.length = 7
  let cell ← verts.mapM (lookupVert point_ids)
  if is_b7 then
    match cell.getLast? with
    | some v => return (cid, cell ++ [v])
    | none => Except.error Err.indexError
  else
    return (cid, cell)

/-! ## Cell block assembly (`_update_cells`, lines 239-249) -/

/-- `_update_cells`: merge a new cell into the last block when the type tag
matches, otherwise start a new block.  The type tag comes from
`numnodes_to_meshio_type[len(cell)]` (`KeyError` for unsupported counts). -/
def _update_cells (cells : List (String × List (List Nat))) (cell : List Nat) :
    Except Err (List (String × List (List Nat))) :=
  match numnodes_to_meshio_type cell.length with
  | none => .error .keyError
  | some cell_type =>
    match cells.getLast? with
    | some (t, rows) =>
      if cell_type = t then
        .ok (cells.dropLast ++ [(t, rows ++ [cell])])
      else
        .ok (cells ++ [(cell_type, [cell])])
    | none => .ok (cells ++ [(cell_type, [cell])])

/-! ## Group bookkeeping (`_update_field_data`, `_update_slots`, lines 252-271) -/

/-- `_update_field_data`: append the group index to `mapper[cid]` for every
member cell id (`KeyError` when the id was never read as a cell), then
record `field_data[name] = (zidx, 3)` (the numpy pair `[zidx, 3]`). -/
def _update_field_data (field_data : List (String × (Int × Int)))
    (mapper : List (Int × List Nat)) (data : List Int) (name : String)
    (zidx : Nat) :
    Except Err (List (String × (Int × Int)) × List (Int × List Nat)) := do
  let mapper ← data.foldlM (fun m cid =>
    match dictGet m cid with
    | some v => Except.ok (dictSet m cid (v ++ [zidx]))
    | none => Except.error Err.keyError) mapper
  return (dictSet field_data name ((zidx : Int), 3), mapper)

/-- `_update_slots`: add the slot to the slot set and fail with a
`ReadError` once the set holds more than one distinct value. -/
def _update_slots (slots : List String) (slot : String) :
    Except Err (List String) :=
  let slots := setAdd slots slot
  if 1 < slots.length then .error .readError else .ok slots

/-- The sequence of `_update_slots` calls the read driver performs, one per
zone-group record, starting from the empty slot set. -/
def processSlots (l : List String) : Except Err (List String) :=
  l.foldlM _update_slots []

/-! ## Reading zone groups (`_read_zgroup`, lines 203-236, text branch) -/

/-- The loop condition of the text `_read_zgroup`: a line terminates the
record when it is empty or its first token is `"*"` or `"ZGROUP"`
(`if line and (line[0] not in {"*", "ZGROUP"})`). -/
def isTerm : Line → Bool
  | [] => true
  | t :: _ => decide (t = Tok.s "*" ∨ t = Tok.s "ZGROUP")

/-- The member-accumulation loop of the text `_read_zgroup`.
`pos` is the read cursor, `i` is the remembered `tell()` value (the start
of the line about to be read), `acc` the members accumulated so far.  On a
terminating line the stream is rewound to `i`; otherwise the line's tokens
are parsed as integers and appended. -/
def zgLoop (lines : List Line) : Nat → Nat → Nat → List Int →
    Except Err (List Int × Nat)
  | 0, _, _, _ => .error .outOfFuel
  | fuel + 1, pos, i, acc =>
    let line := lines.getD pos []
    if isTerm line then
      .ok (acc, i)
    else do
      let ns ← line.mapM intOfTok
      zgLoop lines fuel (pos + 1) (pos + 1) (acc ++ ns)

/-- `name.replace('"', "")` for the single-character pattern `"`: remove
every double-quote character (structural model of `str.replace`). -/
def stripQuotes (s : String) : String :=
  String.mk (s.data.filter (fun c => c != '\"'))

/-- `_read_zgroup`, text branch: the header line supplies the quoted name
(`line[1].replace('"', "")`) and the optional slot
(`"" if "SLOT" not in line else line[-1]`); the member ids are accumulated
by `zgLoop` starting at the current cursor, which finishes on the
terminating line and rewinds to just before it. -/
def _read_zgroup_text (lines : List Line) (pos : Nat) (line : Line) :
    Except Err (String × String × List Int × Nat) := do
  let t1 ← match line.get? 1 with
    | some t => Except.ok t
    | none => Except.error Err.indexError
  let name := stripQuotes (Tok.text t1)
  let slot := if Tok.s "SLOT" ∈ line then (line.getLastD (Tok.s "")).text else ""
  let (data, pos) ← zgLoop lines (lines.length + 1) pos pos []
  return (name, slot, data, pos)

/-! ## The text read driver (`read_buffer`, lines 127-166) -/

/-- The accumulating state of `read_buffer` (ASCII branch). -/
structure RSt where
  points : List (List ℚ)
  point_ids : List (Int × Nat)
  cells : List (String × List (List Nat))
  mapper : List (Int × List Nat)
  field_data : List (String × (Int × Int))
  slots : List String
  pidx : Nat
  countZ : Nat
  zidx : Nat
deriving DecidableEq, Repr

/-- The initial `read_buffer` state. -/
def initRSt : RSt := ⟨[], [], [], [], [], [], 0, 0, 0⟩

/-- The record loop of the ASCII `read_buffer`: read a line, stop when it
has no tokens, dispatch on its first token (`G` / `Z` / `ZGROUP`), skip
anything else. -/
def textLoop (lines : List Line) : Nat → Nat → RSt → Except Err RSt
  | 0, _, _ => .error .outOfFuel
  | fuel + 1, pos, st =>
    match lines.getD pos [] with
    | [] => .ok st
    | t :: rest =>
      if t = Tok.s "G" then do
        let (pid, point) ← _read_point_text (t :: rest)
        textLoop lines fuel (pos + 1)
          { st with points := st.points ++ [point],
                    point_ids := dictSet st.point_ids pid st.pidx,
                    pidx := st.pidx + 1 }
      else if t = Tok.s "Z" then do
        let (cid, cell) ← _read_cell_text (t :: rest) st.point_ids
        let cells ← _update_cells st.cells cell
        textLoop lines fuel (pos + 1)
          { st with cells := cells,
                    mapper := dictSet st.mapper cid [st.countZ],
                    countZ := st.countZ + 1 }
      else if t = Tok.s "ZGROUP" then do
        let (name, slot, data, pos') ← _read_zgroup_text lines (pos + 1) (t :: rest)
        let (fd, mp) ← _update_field_data st.field_data st.mapper data name (st.zidx + 1)
        let slots ← _update_slots st.slots slot
        textLoop lines fuel pos'
          { st with field_data := fd, mapper := mp, slots := slots,
                    zidx := st.zidx + 1 }
      else
        textLoop lines fuel (pos + 1) st

/-- The mesh produced by `read_buffer`. -/
structure MeshR where
  points : List (List ℚ)
  cells : List (String × List (List Nat))
  cell_data : List (String × List (List Int))
  field_data : List (String × (Int × Int))
deriving DecidableEq, Repr

/-- `numpy.split(arr, cumsum(lens)[:-1])`: cut `arr` into consecutive
pieces of the given sizes. -/
def splitSizes : List Nat → List Int → List (List Int)
  | [], _ => []
  | n :: ns, arr => arr.take n :: splitSizes ns (arr.drop n)

/-- The tail of `read_buffer` (lines 152-166): when any group was read,
project `mapper` onto the flat per-cell label array
(`for cid, zid in mapper.values(): cell_data[cid] = zid` — a mapper value
that is not a pair raises `ValueError` at the unpacking, and
`num_cells[-1]` on an empty cell list raises `IndexError`; the
`numpy.empty` initial contents are indeterminate and modelled as zeros,
which is unobservable because every read cell has a mapper entry), split it
per block, and reorder every block's columns by the fixed
`flac3d_to_meshio_order` permutation for its type. -/
def buildCellData (st : RSt) : Except Err (List (String × List (List Int))) :=
  if st.field_data ≠ [] then
    if st.cells = [] then
      Except.error Err.indexError
    else
      let lens := st.cells.map (fun c => c.2.length)
      let total := lens.sum
      (st.mapper.foldlM (fun (arr : List Int) (kv : Int × List Nat) =>
        match kv.2 with
        | [cid, zid] =>
          if cid < total then Except.ok (arr.set cid (zid : Int))
          else Except.error Err.indexError
        | _ => Except.error Err.valueError) (List.replicate total (0 : Int))).map
        (fun arr => [("flac3d:zone", splitSizes lens arr)])
  else
    Except.ok []

def finalizeMesh (st : RSt) : Except Err MeshR := do
  let cell_data ← buildCellData st
  let cells := st.cells.map (fun c =>
    (c.1, c.2.map (applyPerm (flac3d_to_meshio_order c.1))))
  return ⟨st.points, cells, cell_data, st.field_data⟩

/-- The ASCII `read_buffer` driver on a tokenized file. -/
def readText (lines : List Line) : Except Err MeshR := do
  let st ← textLoop lines (lines.length + 1) 0 initRSt
  finalizeMesh st

/-! ## The orientation corrector (`_translate_zones`, lines 387-416) -/

/-- Component access on a coordinate row (`a[:, j]` per row). -/
def coord (p : List ℚ) (j : Nat) : ℚ := p.getD j 0

/-- Componentwise difference of two coordinate rows (`tmp[i] - tmp[0]`). -/
def vsub (a b : List ℚ) : List ℚ :=
  [coord a 0 - coord b 0, coord a 1 - coord b 1, coord a 2 - coord b 2]

/-- `slicing_summing` from `_translate_zones`: the expanded per-cell
scalar triple product. -/
def slicing_summing (a b c : List ℚ) : ℚ :=
  let c0 := coord b 1 * coord c 2 - coord b 2 * coord c 1
  let c1 := coord b 2 * coord c 0 - coord b 0 * coord c 2
  let c2 := coord b 0 * coord c 1 - coord b 1 * coord c 0
  coord a 0 * c0 + coord a 1 * c1 + coord a 2 * c2

/-- `_translate_zones`: keep the supported blocks, and per cell select the
primary permutation when the triple product over the first four
primary-permuted vertices is strictly positive, the alternate one
otherwise (`numpy.where((det > 0)[:, None], ...)`). -/
def _translate_zones (points : List (List ℚ))
    (cells : List (String × List (List Nat))) :
    List (String × List (List Nat)) :=
  cells.filterMap (fun kc =>
    match meshio_only kc.1 with
    | none => none
    | some key =>
      let ord := meshio_to_flac3d_order key
      some (key, kc.2.map (fun row =>
        let v : Nat → List ℚ := fun i => points.getD (row.getD (ord.getD i 0) 0) []
        let det := slicing_summing (vsub (v 1) (v 0)) (vsub (v 2) (v 0))
          (vsub (v 3) (v 0))
        if 0 < det then applyPerm ord row
        else applyPerm (meshio_to_flac3d_order_2 key) row)))

/-- `dot(a, b)` on 3-vectors, following the spec's wording. -/
def dotSpec (a b : List ℚ) : ℚ :=
  coord a 0 * coord b 0 + coord a 1 * coord b 1 + coord a 2 * coord b 2

/-- `cross(a, b)` on 3-vectors, following the spec's wording. -/
def crossSpec (a b : List ℚ) : List ℚ :=
  [coord a 1 * coord b 2 - coord a 2 * coord b 1,
   coord a 2 * coord b 0 - coord a 0 * coord b 2,
   coord a 0 * coord b 1 - coord a 1 * coord b 0]

/-- The spec's signed volume: `dot(v1-v0, cross(v2-v0, v3-v0))`. -/
def tripleSpec (v0 v1 v2 v3 : List ℚ) : ℚ :=
  dotSpec (vsub v1 v0) (crossSpec (vsub v2 v0) (vsub v3 v0))

/-- The orientation corrector as the spec words it: per supported block,
per cell, emit the primary permutation exactly when the spec's triple
product over the first four primary-permuted vertices is strictly
positive, and the mirrored permutation otherwise. -/
def spec_translate_zones (points : List (List ℚ))
    (cells : List (String × List (List Nat))) :
    List (String × List (List Nat)) :=
  cells.filterMap (fun kc =>
    match meshio_only kc.1 with
    | none => none
    | some key =>
      let ord := meshio_to_flac3d_order key
      some (key, kc.2.map (fun row =>
        let v : Nat → List ℚ := fun i => points.getD (row.getD (ord.getD i 0) 0) []
        if 0 < tripleSpec (v 0) (v 1) (v 2) (v 3) then applyPerm ord row
        else applyPerm (meshio_to_flac3d_order_2 key) row)))

/-! ## The zone-group translator (`_translate_zgroups`, lines 419-428) -/

/-- Insert into a sorted list of integers. -/
def insSorted (x : Int) : List Int → List Int
  | [] => [x]
  | y :: ys => if x ≤ y then x :: y :: ys else y :: insSorted x ys

/-- `numpy.unique`: the sorted distinct values of a list. -/
def uniqueSorted (l : List Int) : List Int :=
  l.dedup.foldr insSorted []

/-- `numpy.nonzero(zone_data == k)[0] + 1`: the 1-based positions holding
the value `k`, in ascending order. -/
def nonzeroIdx (zone_data : List Int) (k : Int) : List Int :=
  (List.range zone_data.length).filterMap (fun i =>
    if zone_data.getD i 0 = k then some ((i : Int) + 1) else none)

/-- `_translate_zgroups`: group the 1-based cell positions by label value
(keys in ascending order, as `numpy.unique` returns them), and build the
display-name dict: decimal strings for every present label, then
`labels[0] = "None"`, then the dimension-3 `field_data` entries
(`labels.update(...)`, in insertion order, later entries overriding). -/
def _translate_zgroups (zone_data : List Int)
    (field_data : List (String × (Int × Int))) :
    List (Int × List Int) × List (Int × String) :=
  let keys := uniqueSorted zone_data
  let zgroups := keys.map (fun k => (k, nonzeroIdx zone_data k))
  let labels := keys.map (fun k => (k, toString k))
  let labels := dictSet labels 0 "None"
  let labels := field_data.foldl (fun lb nv =>
    if nv.2.2 = 3 then dictSet lb nv.2.1 nv.1 else lb) labels
  (zgroups, labels)

/-! ## Writing (`write` and helpers, lines 274-438) -/

/-- Modelled from the spec: `_pick_first_int_data` lives in
`meshio._common`, outside `src/`.  The spec says that when several
per-cell integer arrays are present one is picked deterministically by a
fixed precedence rule and the others are reported skipped; modelled as
picking the first array in insertion order, the remaining names being the
skipped ones. -/
def _pick_first_int_data (d : List (String × List (List Int))) :
    Option String × List String :=
  match d with
  | [] => (none, [])
  | (k, _) :: rest => (some k, rest.map (fun kv => kv.1))

/-- `_write_points`: one `G` line per point with the 1-based id and the
three coordinates (a point row with fewer than three entries makes the
format call raise `IndexError`; extra entries are ignored, as
`str.format` ignores surplus arguments). -/
def _write_points (points : List (List ℚ)) : Except Err (List Line) :=
  points.enum.mapM (fun ip =>
    if ip.2.length < 3 then Except.error Err.indexError
    else Except.ok [Tok.s "G", Tok.i ((ip.1 : Int) + 1),
      Tok.r (coord ip.2 0), Tok.r (coord ip.2 1), Tok.r (coord ip.2 2)])

/-- The `Z` lines of `_write_cells`: per zone block, per row, the type
code, the running 1-based cell id and the 1-based vertex ids. -/
def zLines : List (String × List (List Nat)) → Nat → List Line
  | [], _ => []
  | (key, rows) :: rest, i =>
    rows.enum.map (fun jr =>
      [Tok.s "Z", Tok.s (meshio_to_flac3d_type key), Tok.i ((i : Int) + (jr.1 : Int))]
        ++ jr.2.map (fun v => Tok.i ((v : Int) + 1)))
      ++ zLines rest (i + rows.length)

/-- `_write_cells`: orientation-correct the blocks, then emit the `Z`
lines with a global 1-based counter. -/
def _write_cells (points : List (List ℚ))
    (cells : List (String × List (List Nat))) : List Line :=
  zLines (_translate_zones points cells) 1

/-- Chop a list into consecutive pieces of `n` (the fuel is the list
length, always sufficient for `n > 0`). -/
def chunksGo (n : Nat) : Nat → List Int → List (List Int)
  | 0, _ => []
  | _, [] => []
  | fuel + 1, l => l.take n :: chunksGo n fuel (l.drop n)

/-- `_write_zgroup`: the member ids wrapped at 20 per line (the source
splits at `cumsum(full(nrow, ncol))` and skips the empty trailing pieces,
which yields exactly the nonempty 20-wide chunks). -/
def _write_zgroup (data : List Int) : List Line :=
  (chunksGo 20 data.length data).map (fun row => row.map Tok.i)

/-- The two banner comment lines of the text writer (producer identity and
timestamp; their exact words are environment data — only the leading `*`
token matters to any reader). -/
def headerLines : List Line :=
  [[Tok.s "*", Tok.s "FLAC3D", Tok.s "grid", Tok.s "produced", Tok.s "by",
    Tok.s "meshio"],
   [Tok.s "*", Tok.s "timestamp"]]

/-- The ASCII branch of `write`: banners, `* GRIDPOINTS`, the point lines,
`* ZONES`, the orientation-corrected cell lines, and — when cell data is
present and an integer array got picked — `* ZONE GROUPS` followed by one
quoted-name `ZGROUP` header and the wrapped members per label, in
ascending label order. -/
def writeTextM (points : List (List ℚ))
    (cells : List (String × List (List Nat)))
    (cell_data : List (String × List (List Int)))
    (field_data : List (String × (Int × Int))) : Except Err (List Line) := do
  let ptLines ← _write_points points
  let base := headerLines ++ [[Tok.s "*", Tok.s "GRIDPOINTS"]] ++ ptLines
    ++ [[Tok.s "*", Tok.s "ZONES"]] ++ _write_cells points cells
  match cell_data with
  | [] => return base
  | _ =>
    match (_pick_first_int_data cell_data).1 with
    | none => return base
    | some key =>
      let material := ((dictGet cell_data key).getD []).flatten
      let (zgroups, labels) := _translate_zgroups material field_data
      let glines := zgroups.map (fun kv =>
        [Tok.s "ZGROUP", Tok.s ("\"" ++ (dictGet labels kv.1).getD "" ++ "\"")]
          :: _write_zgroup kv.2)
      return base ++ [[Tok.s "*", Tok.s "ZONE", Tok.s "GROUPS"]] ++ glines.flatten

/-- The record-level image of a binary f3grid file as `write` produces it. -/
structure BinFile where
  header : List Int
  pointCount : Nat
  points : List (Int × List ℚ)
  cellCount : Nat
  cells : List (Int × Nat × List Int)
  groupCount : Nat
  groups : List (String × String × List Int)
  trailer : List Int
deriving DecidableEq, Repr

/-- The binary cell records: per zone block,
`column_stack((arange(1, n+1) + count, full(n, num_verts), zone + 1))`. -/
def binCellRecs : List (String × List (List Nat)) → Nat →
    List (Int × Nat × List Int)
  | [], _ => []
  | (_, rows) :: rest, count =>
    rows.enum.map (fun jr =>
      ((jr.1 : Int) + 1 + (count : Int), jr.2.length,
        jr.2.map (fun v => (v : Int) + 1)))
      ++ binCellRecs rest (count + rows.length)

/-- The binary branch of `write`.  Note the source's scoping slip: in this
branch `material` is assigned only inside `if mesh.cell_data:`, yet
`if material is not None:` is evaluated unconditionally afterwards, so an
empty `cell_data` raises `NameError` there (the written cell count is
`sum(len(c.data) for c in mesh.cells)`, over all blocks, while records are
emitted only for the supported ones). -/
def writeBinary (points : List (List ℚ))
    (cells : List (String × List (List Nat)))
    (cell_data : List (String × List (List Int)))
    (field_data : List (String × (Int × Int))) : Except Err BinFile := do
  let pts := points.enum.map (fun ip => (((ip.1 : Int) + 1), ip.2))
  let recs := binCellRecs (_translate_zones points cells) 0
  let declaredCells := (cells.map (fun c => c.2.length)).sum
  match cell_data with
  | [] => Except.error Err.nameError
  | _ =>
    match (_pick_first_int_data cell_data).1 with
    | some key =>
      let material := ((dictGet cell_data key).getD []).flatten
      let (zgroups, labels) := _translate_zgroups material field_data
      return ⟨[1375135718, 3], points.length, pts, declaredCells, recs,
        zgroups.length,
        zgroups.map (fun kv => ((dictGet labels kv.1).getD "", "Default", kv.2)),
        [0, 0]⟩
    | none =>
      return ⟨[1375135718, 3], points.length, pts, declaredCells, recs,
        0, [], [0, 0]⟩

/-- The two possible outputs of `write`. -/
inductive WOut where
  | text (ls : List Line)
  | bin (b : BinFile)
deriving DecidableEq, Repr

/-- The `write` entry point: fail with a `WriteError` when no cell block
has a supported type, otherwise run the selected encoding's branch. -/
def write (points : List (List ℚ))
    (cells : List (String × List (List Nat)))
    (cell_data : List (String × List (List Int)))
    (field_data : List (String × (Int × Int)))
    (binary : Bool) : Except Err WOut :=
  if cells.any (fun c => (meshio_only c.1).isSome) then
    if binary then
      (writeBinary points cells cell_data field_data).map WOut.bin
    else
      (writeTextM points cells cell_data field_data).map WOut.text
  else
    .error .writeError

/-! ## Coordinate re-interpretation (for claim C3's read clause) -/

/-- Replace a numeric token's value by its image under `f`; a word token is
left alone (it fails `float()` either way). -/
def mapNum (f : ℚ → ℚ) : Tok → Tok
  | .i n => .r (f (n : ℚ))
  | .r q => .r (f q)
  | .s w => .s w

/-- Re-coordinate a file: on every `G` point line transform the coordinate
fields (from position 2 on) by `f`; leave every other line untouched. -/
def mapG (f : ℚ → ℚ) (line : Line) : Line :=
  if line.head? = some (Tok.s "G") then
    line.take 2 ++ (line.drop 2).map (mapNum f)
  else line

/-- Transform the coordinates held in an accumulated read state. -/
def mapSt (f : ℚ → ℚ) (st : RSt) : RSt :=
  { st with points := st.points.map (List.map f) }

/-- Transform the coordinates of a read mesh. -/
def mapMesh (f : ℚ → ℚ) (m : MeshR) : MeshR :=
  { m with points := m.points.map (List.map f) }

/-! ## Spec-side label rule (for claim C5) -/

/-- Does a field-metadata entry carry dimensionality 3 and the given label
value? -/
def fdMatch (k : Int) (nv : String × (Int × Int)) : Bool :=
  decide (nv.2.2 = 3 ∧ nv.2.1 = k)

/-- The last field-metadata name mapping to label `k` with dimensionality 3
(the last one wins because `labels.update` overwrites). -/
def lastMatch (field_data : List (String × (Int × Int))) (k : Int) :
    Option String :=
  ((field_data.filter (fdMatch k)).getLast?).map (fun nv => nv.1)

/-- The display name `_translate_zgroups` actually assigns to a label
value: the last dimension-3 field-metadata name mapping to it when one
exists — for every label, including 0 — else the reserved name `"None"`
for label 0, else the decimal string for the labels present in the data. -/
def labelRule (zone_data : List Int) (field_data : List (String × (Int × Int)))
    (k : Int) : Option String :=
  match lastMatch field_data k with
  | some n => some n
  | none =>
    if k = 0 then some "None"
    else if k ∈ uniqueSorted zone_data then some (toString k) else none

/-! ## Concrete inputs used by closed theorems and witnesses -/

/-- A text file with four points, two tetrahedra (external ids 1 and 2)
and one zone group containing only cell 1: cell 2 belongs to no group. -/
def c1lines : List Line :=
  [[Tok.s "G", Tok.i 1, Tok.i 0, Tok.i 0, Tok.i 0],
   [Tok.s "G", Tok.i 2, Tok.i 1, Tok.i 0, Tok.i 0],
   [Tok.s "G", Tok.i 3, Tok.i 0, Tok.i 1, Tok.i 0],
   [Tok.s "G", Tok.i 4, Tok.i 0, Tok.i 0, Tok.i 1],
   [Tok.s "Z", Tok.s "T4", Tok.i 1, Tok.i 1, Tok.i 2, Tok.i 3, Tok.i 4],
   [Tok.s "Z", Tok.s "T4", Tok.i 2, Tok.i 1, Tok.i 2, Tok.i 3, Tok.i 4],
   [Tok.s "ZGROUP", Tok.s "\"A\""],
   [Tok.i 1]]

/-- The same file with the group listing both cells (every cell grouped). -/
def c1linesAll : List Line := c1lines.take 7 ++ [[Tok.i 1, Tok.i 2]]

/-- A stream for the zone-group reader: a `ZGROUP` header at position 0,
two member lines, then a comment line and one line beyond it. -/
def c4lines : List Line :=
  [[Tok.s "ZGROUP", Tok.s "\"A\""], [Tok.i 1, Tok.i 2], [Tok.i 3],
   [Tok.s "*", Tok.s "end"], [Tok.i 9]]

/-- The header line of `c4lines`. -/
def c4hdr : Line := [Tok.s "ZGROUP", Tok.s "\"A\""]

/-- The four corners of a unit tetrahedron. -/
def c9points : List (List ℚ) :=
  [[0, 0, 0], [1, 0, 0], [0, 1, 0], [0, 0, 1]]

/-- One tetrahedron block over `c9points`. -/
def c9cells : List (String × List (List Nat)) := [("tetra", [[0, 1, 2, 3]])]

/-! ## Generic helper lemmas -/

theorem mapM_ok_length {α β : Type} (g : α → Except Err β) :
    ∀ (l : List α) (ys : List β), l.mapM g = .ok ys → ys.length = l.length := by
  intro l
  induction l with
  | nil =>
    intro ys h
    simp only [List.mapM_nil, pure, Except.pure, Except.ok.injEq] at h
    simp [← h]
  | cons a as ih =>
    intro ys h
    rw [List.mapM_cons] at h
    cases hg : g a with
    | error e => rw [hg] at h; simp [Bind.bind, Except.bind] at h
    | ok b =>
      rw [hg] at h
      cases hm : as.mapM g with
      | error e =>
        rw [hm] at h
        simp [Bind.bind, Except.bind] at h
      | ok bs =>
        rw [hm] at h
        simp only [Bind.bind, Except.bind, pure, Except.pure, Except.ok.injEq] at h
        subst h
        simp [ih bs hm]

theorem foldlM_append_except {α β : Type} (g : β → α → Except Err β)
    (l₁ l₂ : List α) (s : β) :
    (l₁ ++ l₂).foldlM g s = (l₁.foldlM g s).bind (fun s₁ => l₂.foldlM g s₁) := by
  induction l₁ generalizing s with
  | nil => simp [List.foldlM_nil, Except.bind, pure, Except.pure]
  | cons a as ih =>
    simp only [List.cons_append, List.foldlM_cons]
    cases hg : g s a with
    | error e => simp [Bind.bind, Except.bind, hg]
    | ok s' => simp [Bind.bind, Except.bind, hg, ih]

/-! ## The single-slot invariant (claim C2) -/

theorem setAdd_mem {α : Type} [DecidableEq α] (s : List α) (x y : α) :
    y ∈ setAdd s x ↔ y ∈ s ∨ y = x := by
  unfold setAdd
  by_cases hx : x ∈ s
  · simp only [if_pos hx]
    constructor
    · exact fun h => Or.inl h
    · rintro (h | rfl) <;> assumption
  · simp [if_neg hx]

theorem setAdd_length_ge {α : Type} [DecidableEq α] (s : List α) (x : α) :
    s.length ≤ (setAdd s x).length := by
  unfold setAdd
  by_cases hx : x ∈ s <;> simp [hx]

theorem setAdd_nodup {α : Type} [DecidableEq α] (s : List α) (x : α)
    (h : s.Nodup) : (setAdd s x).Nodup := by
  unfold setAdd
  by_cases hx : x ∈ s
  · simpa [hx]
  · simpa [hx, List.nodup_append] using h

theorem foldl_setAdd_length_ge {α : Type} [DecidableEq α] (l : List α) :
    ∀ s : List α, s.length ≤ (l.foldl setAdd s).length := by
  induction l with
  | nil => intro s; simp
  | cons a as ih =>
    intro s
    calc s.length ≤ (setAdd s a).length := setAdd_length_ge s a
    _ ≤ ((a :: as).foldl setAdd s).length := by simpa using ih (setAdd s a)

theorem foldl_setAdd_mem {α : Type} [DecidableEq α] (l : List α) :
    ∀ (s : List α) (y : α), y ∈ l.foldl setAdd s ↔ y ∈ s ∨ y ∈ l := by
  induction l with
  | nil => intro s y; simp
  | cons a as ih =>
    intro s y
    simp only [List.foldl_cons, ih, setAdd_mem, List.mem_cons]
    tauto

theorem foldl_setAdd_nodup {α : Type} [DecidableEq α] (l : List α) :
    ∀ s : List α, s.Nodup → (l.foldl setAdd s).Nodup := by
  induction l with
  | nil => intro s h; simpa
  | cons a as ih => intro s h; exact ih _ (setAdd_nodup s a h)

theorem foldlM_update_slots (l : List String) :
    ∀ s : List String, s.length ≤ 1 →
      l.foldlM _update_slots s =
        (if (l.foldl setAdd s).length ≤ 1 then .ok (l.foldl setAdd s)
         else .error .readError) := by
  induction l with
  | nil => intro s hs; simp [List.foldlM_nil, hs, pure, Except.pure]
  | cons a as ih =>
    intro s hs
    rw [List.foldlM_cons]
    by_cases h1 : 1 < (setAdd s a).length
    · have hup : _update_slots s a = .error .readError := by
        unfold _update_slots
        simp [h1]
      rw [hup]
      have hge : (setAdd s a).length ≤ (as.foldl setAdd (setAdd s a)).length :=
        foldl_setAdd_length_ge as (setAdd s a)
      have hnot : ¬ (as.foldl setAdd (setAdd s a)).length ≤ 1 := by omega
      simp [Bind.bind, Except.bind, hnot]
    · have hup : _update_slots s a = .ok (setAdd s a) := by
        unfold _update_slots
        simp [h1]
      rw [hup]
      have hlen : (setAdd s a).length ≤ 1 := by omega
      simpa [Bind.bind, Except.bind] using ih (setAdd s a) hlen

/-- C2: the accumulated `_update_slots` calls that the read driver performs
(one per zone-group record, in file order, counting the empty slot of a
text group without a `SLOT` token as a value) raise the `ReadError` exactly
when the slot values seen are not all one and the same; and once the error
has been raised on some records, it is raised on every extension of them —
the error surfaces as soon as a second distinct value appears, and a file
whose group records all carry a single slot value never sees it. -/
theorem slots_error_iff_two_distinct :
    (∀ l : List String,
      processSlots l = .error .readError ↔ ¬ ∀ a ∈ l, ∀ b ∈ l, a = b)
    ∧ (∀ l₁ l₂ : List String, processSlots l₁ = .error .readError →
        processSlots (l₁ ++ l₂) = .error .readError) := by
  constructor
  · intro l
    rw [show processSlots l = l.foldlM _update_slots [] from rfl,
      foldlM_update_slots l [] (by simp)]
    by_cases hle : (l.foldl setAdd []).length ≤ 1
    · simp only [if_pos hle]
      constructor
      · intro h; exact absurd h (by simp)
      · intro hne
        exfalso
        apply hne
        intro a ha b hb
        have ha' : a ∈ l.foldl setAdd [] := by
          rw [foldl_setAdd_mem]; simp [ha]
        have hb' : b ∈ l.foldl setAdd [] := by
          rw [foldl_setAdd_mem]; simp [hb]
        match hS : l.foldl setAdd [] with
        | [] => rw [hS] at ha'; simp at ha'
        | [x] =>
          rw [hS] at ha' hb'
          simp at ha' hb'
          rw [ha', hb']
        | x :: y :: rest => rw [hS] at hle; simp at hle
    · simp only [if_neg hle]
      constructor
      · intro _ hall
        apply hle
        have hnd : (l.foldl setAdd []).Nodup := foldl_setAdd_nodup l [] (by simp)
        match hS : l.foldl setAdd [] with
        | [] => simp
        | [x] => simp
        | x :: y :: rest =>
          exfalso
          have hx : x ∈ l := by
            have := (foldl_setAdd_mem l [] x).mp (by rw [hS]; simp)
            simpa using this
          have hy : y ∈ l := by
            have := (foldl_setAdd_mem l [] y).mp (by rw [hS]; simp)
            simpa using this
          have hxy : x ≠ y := by
            rw [hS] at hnd
            intro heq
            exact (List.nodup_cons.mp hnd).1 (by simp [heq])
          exact hxy (hall x hx y hy)
      · intro _; trivial
  · intro l₁ l₂ h
    rw [show processSlots (l₁ ++ l₂) = (l₁ ++ l₂).foldlM _update_slots [] from rfl,
      foldlM_append_except]
    rw [show processSlots l₁ = l₁.foldlM _update_slots [] from rfl] at h
    rw [h]
    rfl

/-! ## Cell block assembly (claim C7) -/

/-- C7: `_update_cells` merges the new cell into the last block exactly
when the new cell's type tag equals the last block's tag (first conjunct),
and otherwise — no last block, or a different tag — starts a new block
(second conjunct); consequently three cells whose types run A, B, A with
A ≠ B assemble into three separate blocks, not two (third conjunct). -/
theorem update_cells_block_rule :
    (∀ (cells : List (String × List (List Nat))) (cell : List Nat)
        (t : String) (rows : List (List Nat)),
      numnodes_to_meshio_type cell.length = some t →
      cells.getLast? = some (t, rows) →
      _update_cells cells cell = .ok (cells.dropLast ++ [(t, rows ++ [cell])]))
    ∧ (∀ (cells : List (String × List (List Nat))) (cell : List Nat)
        (t : String),
      numnodes_to_meshio_type cell.length = some t →
      (∀ t' rows, cells.getLast? = some (t', rows) → t' ≠ t) →
      _update_cells cells cell = .ok (cells ++ [(t, [cell])]))
    ∧ (∀ (c1 c2 c3 : List Nat) (ta tb : String),
      numnodes_to_meshio_type c1.length = some ta →
      numnodes_to_meshio_type c2.length = some tb →
      numnodes_to_meshio_type c3.length = some ta →
      ta ≠ tb →
      [c1, c2, c3].foldlM _update_cells [] =
        .ok [(ta, [c1]), (tb, [c2]), (ta, [c3])]) := by
  refine ⟨?_, ?_, ?_⟩
  · intro cells cell t rows h1 h2
    unfold _update_cells
    rw [h1, h2]
    simp
  · intro cells cell t h1 h2
    unfold _update_cells
    rw [h1]
    cases hlast : cells.getLast? with
    | none => simp
    | some p =>
      obtain ⟨t', rows⟩ := p
      have hne : t ≠ t' := Ne.symm (h2 t' rows hlast)
      simp [hne]
  · intro c1 c2 c3 ta tb h1 h2 h3 hne
    have s1 : _update_cells [] c1 = .ok [(ta, [c1])] := by
      unfold _update_cells
      rw [h1]
      simp
    have s2 : _update_cells [(ta, [c1])] c2 = .ok [(ta, [c1]), (tb, [c2])] := by
      unfold _update_cells
      rw [h2]
      simp [Ne.symm hne]
    have s3 : _update_cells [(ta, [c1]), (tb, [c2])] c3 =
        .ok [(ta, [c1]), (tb, [c2]), (ta, [c3])] := by
      unfold _update_cells
      rw [h3]
      simp [hne]
    simp [List.foldlM_cons, List.foldlM_nil, s1, s2, s3, Bind.bind,
      Except.bind, pure, Except.pure]

/-- Witness for C7 at concrete cells: a tetra, a pyramid, then another
tetra produce three blocks. -/
theorem update_cells_block_rule_witness :
    [[0, 1, 2, 3], [0, 1, 2, 3, 4], [4, 5, 6, 7]].foldlM _update_cells [] =
      .ok [("tetra", [[0, 1, 2, 3]]), ("pyramid", [[0, 1, 2, 3, 4]]),
        ("tetra", [[4, 5, 6, 7]])] :=
  update_cells_block_rule.2.2 [0, 1, 2, 3] [0, 1, 2, 3, 4] [4, 5, 6, 7]
    "tetra" "pyramid" (by decide) (by decide) (by decide) (by decide)

/-! ## Degenerate 7-vertex cells (claim C6) -/

/-- C6: a binary cell record with vertex count exactly 7, and a text cell
record whose type-code marker is `B7`, are both normalized on read into an
8-vertex cell by appending a duplicate of the last vertex, so the last two
internal vertex indices are identical. -/
theorem seven_vertex_normalized :
    (∀ (point_ids : List (Int × Nat)) (cid : Int) (verts : List Int)
        (ys : List Nat) (y : Nat),
      verts.length = 7 →
      verts.mapM (lookupVert point_ids) = .ok (ys ++ [y]) →
      _read_cell_binary point_ids cid verts = .ok (cid, ys ++ [y, y]) ∧
        (ys ++ [y, y]).length = 8)
    ∧ (∀ (point_ids : List (Int × Nat)) (line : Line) (t2 : Tok) (cid : Int)
        (ys : List Nat) (y : Nat),
      line.get? 1 = some (Tok.s "B7") →
      line.get? 2 = some t2 →
      intOfTok t2 = .ok cid →
      (line.drop 3).mapM (vertOfTok point_ids) = .ok (ys ++ [y]) →
      _read_cell_text line point_ids = .ok (cid, ys ++ [y, y]) ∧
        ((line.drop 3).length = 7 → (ys ++ [y, y]).length = 8)) := by
  constructor
  · intro point_ids cid verts ys y h7 hmap
    have hlen : (ys ++ [y]).length = verts.length :=
      mapM_ok_length (lookupVert point_ids) verts (ys ++ [y]) hmap
    constructor
    · unfold _read_cell_binary
      rw [hmap]
      simp [Bind.bind, Except.bind, h7, List.getLast?_concat, pure,
        Except.pure, List.append_assoc]
    · simp at hlen
      simp
      omega
  · intro point_ids line t2 cid ys y hb7 h2 hcid hmap
    constructor
    · have hgd : (line.get? 1).getD (Tok.s "") = Tok.s "B7" := by
        rw [hb7]
        rfl
      rw [List.get?_eq_getElem?] at hgd
      unfold _read_cell_text
      rw [h2, hmap]
      simp [Bind.bind, Except.bind, hcid, hgd, List.getLast?_concat, pure,
        Except.pure, List.append_assoc]
    · intro h7
      have hlen : (ys ++ [y]).length = (line.drop 3).length :=
        mapM_ok_length (vertOfTok point_ids) (line.drop 3) (ys ++ [y]) hmap
      rw [h7] at hlen
      simp at hlen
      simp
      omega

/-- Witness for C6: a concrete binary record with 7 vertex ids and a
concrete `B7` text line are both read back with 8 vertices, the last two
identical. -/
theorem seven_vertex_normalized_witness :
    _read_cell_binary
        [(1, 0), (2, 1), (3, 2), (4, 3), (5, 4), (6, 5), (7, 6)] 9
        [1, 2, 3, 4, 5, 6, 7] = .ok (9, [0, 1, 2, 3, 4, 5, 6, 6]) ∧
    _read_cell_text
        [Tok.s "Z", Tok.s "B7", Tok.i 9, Tok.i 1, Tok.i 2, Tok.i 3, Tok.i 4,
          Tok.i 5, Tok.i 6, Tok.i 7]
        [(1, 0), (2, 1), (3, 2), (4, 3), (5, 4), (6, 5), (7, 6)] =
      .ok (9, [0, 1, 2, 3, 4, 5, 6, 6]) :=
  ⟨(seven_vertex_normalized.1
      [(1, 0), (2, 1), (3, 2), (4, 3), (5, 4), (6, 5), (7, 6)] 9
      [1, 2, 3, 4, 5, 6, 7] [0, 1, 2, 3, 4, 5] 6 (by decide) (by rfl)).1,
   (seven_vertex_normalized.2
      [(1, 0), (2, 1), (3, 2), (4, 3), (5, 4), (6, 5), (7, 6)]
      [Tok.s "Z", Tok.s "B7", Tok.i 9, Tok.i 1, Tok.i 2, Tok.i 3, Tok.i 4,
        Tok.i 5, Tok.i 6, Tok.i 7]
      (Tok.i 9) 9 [0, 1, 2, 3, 4, 5] 6 (by rfl) (by rfl) (by rfl)
      (by rfl)).1⟩

/-! ## Zone-group display names (claim C5) -/

theorem dictGet_dictSet_self {α β : Type} [DecidableEq α]
    (d : List (α × β)) (k : α) (v : β) : dictGet (dictSet d k v) k = some v := by
  induction d with
  | nil => simp [dictSet, dictGet]
  | cons p rest ih =>
    obtain ⟨k₀, v₀⟩ := p
    by_cases h : k = k₀
    · simp [dictSet, dictGet, h]
    · simp [dictSet, dictGet, h, ih]

theorem dictGet_dictSet_ne {α β : Type} [DecidableEq α]
    (d : List (α × β)) (k k' : α) (v : β) (h : k' ≠ k) :
    dictGet (dictSet d k v) k' = dictGet d k' := by
  induction d with
  | nil => simp [dictSet, dictGet, h]
  | cons p rest ih =>
    obtain ⟨k₀, v₀⟩ := p
    by_cases hk : k = k₀
    · subst hk
      simp [dictSet, dictGet, h]
    · by_cases hk' : k' = k₀
      · simp [dictSet, dictGet, hk, hk']
      · simp [dictSet, dictGet, hk, hk', ih]

theorem dictGet_map_pair {α β : Type} [DecidableEq α]
    (l : List α) (g : α → β) (k : α) :
    dictGet (l.map (fun x => (x, g x))) k =
      if k ∈ l then some (g k) else none := by
  induction l with
  | nil => simp [dictGet]
  | cons a rest ih =>
    by_cases h : k = a
    · simp [dictGet, h]
    · simp [dictGet, h, ih]

theorem labels_fold_get (k : Int) :
    ∀ (fd : List (String × (Int × Int))) (base : List (Int × String)),
      dictGet (fd.foldl (fun lb nv =>
        if nv.2.2 = 3 then dictSet lb nv.2.1 nv.1 else lb) base) k =
      (match lastMatch fd k with
       | some n => some n
       | none => dictGet base k) := by
  intro fd
  induction fd with
  | nil => intro base; simp [lastMatch]
  | cons nv rest ih =>
    intro base
    rw [List.foldl_cons, ih]
    by_cases h3 : nv.2.2 = 3
    · by_cases hk : nv.2.1 = k
      · have hp : fdMatch k nv = true := by simp [fdMatch, h3, hk]
        cases hrest : lastMatch rest k with
        | some n =>
          have hlm : lastMatch (nv :: rest) k = some n := by
            unfold lastMatch at hrest ⊢
            rw [List.filter_cons_of_pos hp]
            cases hfil : rest.filter (fdMatch k) with
            | nil => rw [hfil] at hrest; simp at hrest
            | cons b bs =>
              rw [hfil] at hrest
              rw [List.getLast?_cons_cons]
              exact hrest
          rw [hlm]
        | none =>
          have hfil : rest.filter (fdMatch k) = [] := by
            unfold lastMatch at hrest
            cases hf : rest.filter (fdMatch k) with
            | nil => rfl
            | cons b bs =>
              rw [hf] at hrest
              simp [List.getLast?] at hrest
          have hlm : lastMatch (nv :: rest) k = some nv.1 := by
            unfold lastMatch
            rw [List.filter_cons_of_pos hp, hfil]
            rfl
          rw [hlm]
          show dictGet (if nv.2.2 = 3 then dictSet base nv.2.1 nv.1 else base) k
            = some nv.1
          rw [if_pos h3, hk]
          exact dictGet_dictSet_self base k nv.1
      · have hp : fdMatch k nv = false := by simp [fdMatch, hk]
        have : lastMatch (nv :: rest) k = lastMatch rest k := by
          unfold lastMatch
          rw [List.filter_cons_of_neg (by simp [hp])]
        rw [this]
        cases hrest : lastMatch rest k with
        | some n => rfl
        | none =>
          simp only [h3, if_pos rfl]
          exact dictGet_dictSet_ne base nv.2.1 k nv.1 (fun h => hk h.symm)
    · have hp : fdMatch k nv = false := by simp [fdMatch, h3]
      have : lastMatch (nv :: rest) k = lastMatch rest k := by
        unfold lastMatch
        rw [List.filter_cons_of_neg (by simp [hp])]
      rw [this, if_neg h3]

/-- C5 counterexample: the claim says the label value 0 is always
displayed under the fixed reserved name (`"None"`); but with a
dimensionality-3 field-metadata entry mapping to label 0, the zero-label
group exists and is displayed under that metadata name instead. -/
theorem zgroup_label_zero_counterexample :
    (_translate_zgroups [0] [("foo", (0, 3))]).1.map (fun kv => kv.1) = [0] ∧
    dictGet (_translate_zgroups [0] [("foo", (0, 3))]).2 0 = some "foo" ∧
    (some "foo" : Option String) ≠ some "None" :=
  ⟨rfl, rfl, by decide⟩

/-- C5 amended: on write, a label value `k` is displayed under the last
dimensionality-3 field-metadata name mapping to exactly `k` when such a
name exists — this override applies to every label, including 0 — else
label 0 is displayed under the reserved name `"None"`, and any other label
present in the data under its decimal string representation. -/
theorem zgroup_label_names (zone_data : List Int)
    (field_data : List (String × (Int × Int))) (k : Int) :
    dictGet (_translate_zgroups zone_data field_data).2 k =
      labelRule zone_data field_data k := by
  unfold _translate_zgroups labelRule
  rw [labels_fold_get]
  cases lastMatch field_data k with
  | some n => rfl
  | none =>
    by_cases h0 : k = 0
    · subst h0
      simp [dictGet_dictSet_self]
    · rw [dictGet_dictSet_ne _ _ _ _ h0, dictGet_map_pair]
      simp [h0]

/-! ## Orientation correction (claim C3) -/

theorem slicing_summing_eq_dot_cross (a b c : List ℚ) :
    slicing_summing a b c = dotSpec a (crossSpec b c) := by
  unfold slicing_summing dotSpec crossSpec
  simp only [coord, List.getD_cons_zero, List.getD_cons_succ]

theorem translate_zones_eq_spec (points : List (List ℚ))
    (cells : List (String × List (List Nat))) :
    _translate_zones points cells = spec_translate_zones points cells := by
  unfold _translate_zones spec_translate_zones tripleSpec
  rw [funext (fun a => funext (fun b => funext (fun c =>
    slicing_summing_eq_dot_cross a b c)))]

theorem mapG_nil (f : ℚ → ℚ) : mapG f [] = [] := rfl

theorem mapG_head? (f : ℚ → ℚ) (l : Line) : (mapG f l).head? = l.head? := by
  unfold mapG
  by_cases h : l.head? = some (Tok.s "G")
  · rw [if_pos h]
    cases l with
    | nil => simp at h
    | cons t rest => simp
  · rw [if_neg h]

theorem mapG_of_head_ne (f : ℚ → ℚ) (l : Line)
    (h : l.head? ≠ some (Tok.s "G")) : mapG f l = l := by
  unfold mapG
  rw [if_neg h]

theorem mapG_cons_G (f : ℚ → ℚ) (rest : List Tok) :
    mapG f (Tok.s "G" :: rest) =
      Tok.s "G" :: (rest.take 1 ++ (rest.drop 1).map (mapNum f)) := by
  unfold mapG
  simp

theorem isTerm_head? (l : Line) :
    isTerm l = match l.head? with
      | none => true
      | some t => decide (t = Tok.s "*" ∨ t = Tok.s "ZGROUP") := by
  cases l <;> rfl

theorem isTerm_mapG (f : ℚ → ℚ) (l : Line) : isTerm (mapG f l) = isTerm l := by
  rw [isTerm_head?, isTerm_head?, mapG_head?]

theorem getD_map_mapG (f : ℚ → ℚ) (lines : List Line) (pos : Nat) :
    (lines.map (mapG f)).getD pos [] = mapG f (lines.getD pos []) := by
  induction lines generalizing pos with
  | nil => simp [mapG_nil]
  | cons l rest ih =>
    cases pos with
    | zero => simp
    | succ p => simpa using ih p

theorem ratOfTok_mapNum (f : ℚ → ℚ) (t : Tok) :
    ratOfTok (mapNum f t) = (ratOfTok t).map f := by
  cases t <;> simp [mapNum, ratOfTok, Except.map]

theorem mapM_ratOfTok_mapNum (f : ℚ → ℚ) (l : List Tok) :
    (l.map (mapNum f)).mapM ratOfTok = (l.mapM ratOfTok).map (List.map f) := by
  induction l with
  | nil => rfl
  | cons t rest ih =>
    simp only [List.map_cons, List.mapM_cons]
    rw [ratOfTok_mapNum]
    cases ht : ratOfTok t with
    | error e => simp [Bind.bind, Except.bind, Except.map]
    | ok q =>
      simp only [Except.map, Bind.bind, Except.bind]
      rw [ih]
      cases hrest : rest.mapM ratOfTok with
      | error e => simp [Except.map]
      | ok qs => simp [Except.map, pure, Except.pure]

theorem mapM_intOfTok_mapG (f : ℚ → ℚ) (l : Line) :
    (mapG f l).mapM intOfTok = l.mapM intOfTok := by
  by_cases h : l.head? = some (Tok.s "G")
  · cases l with
    | nil => simp at h
    | cons t rest =>
      have ht : t = Tok.s "G" := by simpa using h
      subst ht
      rw [mapG_cons_G]
      rw [List.mapM_cons, List.mapM_cons]
      simp [intOfTok, Bind.bind, Except.bind]
  · rw [mapG_of_head_ne f l h]

/-! ## Step equations for the read loops -/

theorem zgLoop_term (lines : List Line) (fuel pos i : Nat) (acc : List Int)
    (h : isTerm (lines.getD pos []) = true) :
    zgLoop lines (fuel + 1) pos i acc = .ok (acc, i) := by
  simp only [zgLoop, h]
  rfl

theorem zgLoop_data_err (lines : List Line) (fuel pos i : Nat) (acc : List Int)
    (e : Err) (h : isTerm (lines.getD pos []) = false)
    (hm : (lines.getD pos []).mapM intOfTok = .error e) :
    zgLoop lines (fuel + 1) pos i acc = .error e := by
  simp only [zgLoop, h]
  rw [hm]
  simp [Bind.bind, Except.bind]

theorem zgLoop_data_ok (lines : List Line) (fuel pos i : Nat) (acc : List Int)
    (ns : List Int) (h : isTerm (lines.getD pos []) = false)
    (hm : (lines.getD pos []).mapM intOfTok = .ok ns) :
    zgLoop lines (fuel + 1) pos i acc =
      zgLoop lines fuel (pos + 1) (pos + 1) (acc ++ ns) := by
  simp only [zgLoop, h]
  rw [hm]
  simp [Bind.bind, Except.bind]

theorem textLoop_succ_nil (lines : List Line) (fuel pos : Nat) (st : RSt)
    (h : lines.getD pos [] = []) :
    textLoop lines (fuel + 1) pos st = .ok st := by
  simp only [textLoop, h]

theorem textLoop_G_err (lines : List Line) (fuel pos : Nat) (st : RSt)
    (rest : List Tok) (e : Err) (h : lines.getD pos [] = Tok.s "G" :: rest)
    (hr : _read_point_text (Tok.s "G" :: rest) = .error e) :
    textLoop lines (fuel + 1) pos st = .error e := by
  simp only [textLoop, h]
  simp [Bind.bind, Except.bind, hr]

theorem textLoop_G_ok (lines : List Line) (fuel pos : Nat) (st : RSt)
    (rest : List Tok) (pid : Int) (point : List ℚ)
    (h : lines.getD pos [] = Tok.s "G" :: rest)
    (hr : _read_point_text (Tok.s "G" :: rest) = .ok (pid, point)) :
    textLoop lines (fuel + 1) pos st =
      textLoop lines fuel (pos + 1)
        { st with
            points := st.points ++ [point],
            point_ids := dictSet st.point_ids pid st.pidx,
            pidx := st.pidx + 1 } := by
  simp only [textLoop, h]
  simp [Bind.bind, Except.bind, hr]

theorem textLoop_Z_err1 (lines : List Line) (fuel pos : Nat) (st : RSt)
    (rest : List Tok) (e : Err) (h : lines.getD pos [] = Tok.s "Z" :: rest)
    (hr : _read_cell_text (Tok.s "Z" :: rest) st.point_ids = .error e) :
    textLoop lines (fuel + 1) pos st = .error e := by
  simp only [textLoop, h]
  simp [Bind.bind, Except.bind, hr]

theorem textLoop_Z_err2 (lines : List Line) (fuel pos : Nat) (st : RSt)
    (rest : List Tok) (cid : Int) (cell : List Nat) (e : Err)
    (h : lines.getD pos [] = Tok.s "Z" :: rest)
    (hr : _read_cell_text (Tok.s "Z" :: rest) st.point_ids = .ok (cid, cell))
    (hu : _update_cells st.cells cell = .error e) :
    textLoop lines (fuel + 1) pos st = .error e := by
  simp only [textLoop, h]
  simp [Bind.bind, Except.bind, hr, hu]

theorem textLoop_Z_ok (lines : List Line) (fuel pos : Nat) (st : RSt)
    (rest : List Tok) (cid : Int) (cell : List Nat)
    (cells : List (String × List (List Nat)))
    (h : lines.getD pos [] = Tok.s "Z" :: rest)
    (hr : _read_cell_text (Tok.s "Z" :: rest) st.point_ids = .ok (cid, cell))
    (hu : _update_cells st.cells cell = .ok cells) :
    textLoop lines (fuel + 1) pos st =
      textLoop lines fuel (pos + 1)
        { st with
            cells := cells,
            mapper := dictSet st.mapper cid [st.countZ],
            countZ := st.countZ + 1 } := by
  simp only [textLoop, h]
  simp [Bind.bind, Except.bind, hr, hu]

theorem textLoop_zg_err1 (lines : List Line) (fuel pos : Nat) (st : RSt)
    (rest : List Tok) (e : Err) (h : lines.getD pos [] = Tok.s "ZGROUP" :: rest)
    (hr : _read_zgroup_text lines (pos + 1) (Tok.s "ZGROUP" :: rest) = .error e) :
    textLoop lines (fuel + 1) pos st = .error e := by
  simp only [textLoop, h]
  simp [Bind.bind, Except.bind, hr]

theorem textLoop_zg_err2 (lines : List Line) (fuel pos : Nat) (st : RSt)
    (rest : List Tok) (name slot : String) (data : List Int) (pos' : Nat)
    (e : Err) (h : lines.getD pos [] = Tok.s "ZGROUP" :: rest)
    (hr : _read_zgroup_text lines (pos + 1) (Tok.s "ZGROUP" :: rest) =
      .ok (name, slot, data, pos'))
    (hu : _update_field_data st.field_data st.mapper data name (st.zidx + 1) =
      .error e) :
    textLoop lines (fuel + 1) pos st = .error e := by
  simp only [textLoop, h]
  simp [Bind.bind, Except.bind, hr, hu]

theorem textLoop_zg_err3 (lines : List Line) (fuel pos : Nat) (st : RSt)
    (rest : List Tok) (name slot : String) (data : List Int) (pos' : Nat)
    (fd : List (String × (Int × Int))) (mp : List (Int × List Nat)) (e : Err)
    (h : lines.getD pos [] = Tok.s "ZGROUP" :: rest)
    (hr : _read_zgroup_text lines (pos + 1) (Tok.s "ZGROUP" :: rest) =
      .ok (name, slot, data, pos'))
    (hu : _update_field_data st.field_data st.mapper data name (st.zidx + 1) =
      .ok (fd, mp))
    (hs : _update_slots st.slots slot = .error e) :
    textLoop lines (fuel + 1) pos st = .error e := by
  simp only [textLoop, h]
  simp [Bind.bind, Except.bind, hr, hu, hs]

theorem textLoop_zg_ok (lines : List Line) (fuel pos : Nat) (st : RSt)
    (rest : List Tok) (name slot : String) (data : List Int) (pos' : Nat)
    (fd : List (String × (Int × Int))) (mp : List (Int × List Nat))
    (slots : List String)
    (h : lines.getD pos [] = Tok.s "ZGROUP" :: rest)
    (hr : _read_zgroup_text lines (pos + 1) (Tok.s "ZGROUP" :: rest) =
      .ok (name, slot, data, pos'))
    (hu : _update_field_data st.field_data st.mapper data name (st.zidx + 1) =
      .ok (fd, mp))
    (hs : _update_slots st.slots slot = .ok slots) :
    textLoop lines (fuel + 1) pos st =
      textLoop lines fuel pos'
        { st with
            field_data := fd,
            mapper := mp,
            slots := slots,
            zidx := st.zidx + 1 } := by
  simp only [textLoop, h]
  simp [Bind.bind, Except.bind, hr, hu, hs]

theorem textLoop_succ_skip (lines : List Line) (fuel pos : Nat) (st : RSt)
    (t : Tok) (rest : List Tok) (h : lines.getD pos [] = t :: rest)
    (hG : t ≠ Tok.s "G") (hZ : t ≠ Tok.s "Z") (hZG : t ≠ Tok.s "ZGROUP") :
    textLoop lines (fuel + 1) pos st = textLoop lines fuel (pos + 1) st := by
  simp only [textLoop, h, if_neg hG, if_neg hZ, if_neg hZG]

/-! ## Coordinate independence of the text read (claim C3, read clause) -/

theorem read_point_mapG (f : ℚ → ℚ) (rest : List Tok) :
    _read_point_text (mapG f (Tok.s "G" :: rest)) =
      (_read_point_text (Tok.s "G" :: rest)).map
        (fun pq => (pq.1, pq.2.map f)) := by
  rw [mapG_cons_G]
  cases rest with
  | nil =>
    unfold _read_point_text
    simp [Bind.bind, Except.bind, Except.map]
  | cons a rest' =>
    have hshape : (Tok.s "G" :: ((a :: rest').take 1
        ++ ((a :: rest').drop 1).map (mapNum f)))
        = Tok.s "G" :: a :: rest'.map (mapNum f) := by simp
    rw [hshape]
    unfold _read_point_text
    simp only [List.get?_cons_succ, List.get?_cons_zero]
    cases hi : intOfTok a with
    | error e => simp [Bind.bind, Except.bind, Except.map, hi]
    | ok pid =>
      simp only [Bind.bind, Except.bind, hi, List.drop_succ_cons, List.drop_zero]
      rw [show (rest'.map (mapNum f)).mapM ratOfTok
          = (rest'.mapM ratOfTok).map (List.map f) from mapM_ratOfTok_mapNum f rest']
      cases hr : rest'.mapM ratOfTok with
      | error e => simp [Except.map]
      | ok qs => simp [Except.map, pure, Except.pure]

theorem zgLoop_mapG (f : ℚ → ℚ) (lines : List Line) :
    ∀ (fuel pos i : Nat) (acc : List Int),
      zgLoop (lines.map (mapG f)) fuel pos i acc = zgLoop lines fuel pos i acc := by
  intro fuel
  induction fuel with
  | zero => intro pos i acc; rfl
  | succ fuel ih =>
    intro pos i acc
    have hget := getD_map_mapG f lines pos
    have htm : isTerm ((lines.map (mapG f)).getD pos [])
        = isTerm (lines.getD pos []) := by
      rw [hget, isTerm_mapG]
    have hmm : ((lines.map (mapG f)).getD pos []).mapM intOfTok
        = (lines.getD pos []).mapM intOfTok := by
      rw [hget, mapM_intOfTok_mapG]
    cases hterm : isTerm (lines.getD pos []) with
    | true =>
      rw [zgLoop_term lines fuel pos i acc hterm,
        zgLoop_term (lines.map (mapG f)) fuel pos i acc (htm.trans hterm)]
    | false =>
      cases hm : (lines.getD pos []).mapM intOfTok with
      | error e =>
        rw [zgLoop_data_err lines fuel pos i acc e hterm hm,
          zgLoop_data_err (lines.map (mapG f)) fuel pos i acc e
            (htm.trans hterm) (hmm.trans hm)]
      | ok ns =>
        rw [zgLoop_data_ok lines fuel pos i acc ns hterm hm,
          zgLoop_data_ok (lines.map (mapG f)) fuel pos i acc ns
            (htm.trans hterm) (hmm.trans hm)]
        exact ih (pos + 1) (pos + 1) (acc ++ ns)

theorem read_zgroup_mapG (f : ℚ → ℚ) (lines : List Line) (pos : Nat)
    (line : Line) :
    _read_zgroup_text (lines.map (mapG f)) pos line =
      _read_zgroup_text lines pos line := by
  unfold _read_zgroup_text
  rw [List.length_map, zgLoop_mapG]

theorem mapSt_updG (f : ℚ → ℚ) (st : RSt) (pid : Int) (point : List ℚ) :
    ({ mapSt f st with
        points := (mapSt f st).points ++ [point.map f],
        point_ids := dictSet (mapSt f st).point_ids pid (mapSt f st).pidx,
        pidx := (mapSt f st).pidx + 1 } : RSt)
      = mapSt f
        { st with
            points := st.points ++ [point],
            point_ids := dictSet st.point_ids pid st.pidx,
            pidx := st.pidx + 1 } := by
  simp [mapSt]

theorem textLoop_mapG (f : ℚ → ℚ) (lines : List Line) :
    ∀ (fuel pos : Nat) (st : RSt),
      textLoop (lines.map (mapG f)) fuel pos (mapSt f st) =
        (textLoop lines fuel pos st).map (mapSt f) := by
  intro fuel
  induction fuel with
  | zero => intro pos st; rfl
  | succ fuel ih =>
    intro pos st
    have hget := getD_map_mapG f lines pos
    cases hl : lines.getD pos [] with
    | nil =>
      rw [hl, mapG_nil] at hget
      rw [textLoop_succ_nil lines fuel pos st hl,
        textLoop_succ_nil (lines.map (mapG f)) fuel pos (mapSt f st) hget]
      rfl
    | cons t rest =>
      rw [hl] at hget
      by_cases hG : t = Tok.s "G"
      · subst hG
        have hconsG : (lines.map (mapG f)).getD pos []
            = Tok.s "G" :: (rest.take 1 ++ (rest.drop 1).map (mapNum f)) :=
          hget.trans (mapG_cons_G f rest)
        have hrp := read_point_mapG f rest
        cases hr : _read_point_text (Tok.s "G" :: rest) with
        | error e =>
          have hrE : _read_point_text
              (Tok.s "G" :: (rest.take 1 ++ (rest.drop 1).map (mapNum f)))
              = .error e := by
            rw [← mapG_cons_G, hrp, hr]
            rfl
          rw [textLoop_G_err lines fuel pos st rest e hl hr,
            textLoop_G_err (lines.map (mapG f)) fuel pos (mapSt f st) _ e
              hconsG hrE]
          rfl
        | ok p =>
          obtain ⟨pid, point⟩ := p
          have hrO : _read_point_text
              (Tok.s "G" :: (rest.take 1 ++ (rest.drop 1).map (mapNum f)))
              = .ok (pid, point.map f) := by
            rw [← mapG_cons_G, hrp, hr]
            rfl
          rw [textLoop_G_ok lines fuel pos st rest pid point hl hr,
            textLoop_G_ok (lines.map (mapG f)) fuel pos (mapSt f st) _ pid
              (point.map f) hconsG hrO]
          rw [mapSt_updG]
          exact ih (pos + 1)
            { st with
                points := st.points ++ [point],
                point_ids := dictSet st.point_ids pid st.pidx,
                pidx := st.pidx + 1 }
      · have hmap_eq : mapG f (t :: rest) = t :: rest :=
          mapG_of_head_ne f (t :: rest) (by simpa using hG)
        rw [hmap_eq] at hget
        by_cases hZ : t = Tok.s "Z"
        · subst hZ
          cases hr : _read_cell_text (Tok.s "Z" :: rest) st.point_ids with
          | error e =>
            rw [textLoop_Z_err1 lines fuel pos st rest e hl hr,
              textLoop_Z_err1 (lines.map (mapG f)) fuel pos (mapSt f st) rest e
                hget hr]
            rfl
          | ok p =>
            obtain ⟨cid, cell⟩ := p
            cases hu : _update_cells st.cells cell with
            | error e =>
              rw [textLoop_Z_err2 lines fuel pos st rest cid cell e hl hr hu,
                textLoop_Z_err2 (lines.map (mapG f)) fuel pos (mapSt f st) rest
                  cid cell e hget hr hu]
              rfl
            | ok cells =>
              rw [textLoop_Z_ok lines fuel pos st rest cid cell cells hl hr hu,
                textLoop_Z_ok (lines.map (mapG f)) fuel pos (mapSt f st) rest
                  cid cell cells hget hr hu]
              exact ih (pos + 1)
                { st with
                    cells := cells,
                    mapper := dictSet st.mapper cid [st.countZ],
                    countZ := st.countZ + 1 }
        · by_cases hZG : t = Tok.s "ZGROUP"
          · subst hZG
            cases hr : _read_zgroup_text lines (pos + 1)
                (Tok.s "ZGROUP" :: rest) with
            | error e =>
              have hrM : _read_zgroup_text (lines.map (mapG f)) (pos + 1)
                  (Tok.s "ZGROUP" :: rest) = .error e := by
                rw [read_zgroup_mapG, hr]
              rw [textLoop_zg_err1 lines fuel pos st rest e hl hr,
                textLoop_zg_err1 (lines.map (mapG f)) fuel pos (mapSt f st)
                  rest e hget hrM]
              rfl
            | ok p =>
              obtain ⟨name, slot, data, pos'⟩ := p
              have hrM : _read_zgroup_text (lines.map (mapG f)) (pos + 1)
                  (Tok.s "ZGROUP" :: rest) = .ok (name, slot, data, pos') := by
                rw [read_zgroup_mapG, hr]
              cases hu : _update_field_data st.field_data st.mapper data name
                  (st.zidx + 1) with
              | error e =>
                rw [textLoop_zg_err2 lines fuel pos st rest name slot data pos'
                    e hl hr hu,
                  textLoop_zg_err2 (lines.map (mapG f)) fuel pos (mapSt f st)
                    rest name slot data pos' e hget hrM hu]
                rfl
              | ok q =>
                obtain ⟨fd, mp⟩ := q
                cases hs : _update_slots st.slots slot with
                | error e =>
                  rw [textLoop_zg_err3 lines fuel pos st rest name slot data
                      pos' fd mp e hl hr hu hs,
                    textLoop_zg_err3 (lines.map (mapG f)) fuel pos (mapSt f st)
                      rest name slot data pos' fd mp e hget hrM hu hs]
                  rfl
                | ok slots =>
                  rw [textLoop_zg_ok lines fuel pos st rest name slot data pos'
                      fd mp slots hl hr hu hs,
                    textLoop_zg_ok (lines.map (mapG f)) fuel pos (mapSt f st)
                      rest name slot data pos' fd mp slots hget hrM hu hs]
                  exact ih pos'
                    { st with
                        field_data := fd,
                        mapper := mp,
                        slots := slots,
                        zidx := st.zidx + 1 }
          · rw [textLoop_succ_skip lines fuel pos st t rest hl hG hZ hZG,
              textLoop_succ_skip (lines.map (mapG f)) fuel pos (mapSt f st) t
                rest hget hG hZ hZG]
            exact ih (pos + 1) st

theorem finalize_mapSt (f : ℚ → ℚ) (st : RSt) :
    finalizeMesh (mapSt f st) = (finalizeMesh st).map (mapMesh f) := by
  unfold finalizeMesh
  rw [show buildCellData (mapSt f st) = buildCellData st from rfl]
  cases hcd : buildCellData st with
  | error e => rfl
  | ok cd => rfl

/-- C3: on write, `_translate_zones` computes, per cell of a supported
block, the scalar triple product `dot(v1-v0, cross(v2-v0, v3-v0))` over
the first four vertices taken under the primary canonical permutation and
emits the cell under the primary permutation exactly when the product is
strictly positive, under the alternate mirrored permutation otherwise,
zero included (first conjunct: the code's orientation corrector coincides
with `spec_translate_zones`, which is spelled with the spec's
`dot`/`cross` formula and that selection rule); and no orientation test is
applied on read: re-coordinating every point line of a file by an
arbitrary transformation of the numeric fields changes nothing in the read
mesh but the point coordinates themselves — cells, cell data and field
data are untouched (second conjunct). -/
theorem orientation_correction :
    (∀ (points : List (List ℚ)) (cells : List (String × List (List Nat))),
      _translate_zones points cells = spec_translate_zones points cells)
    ∧ (∀ (f : ℚ → ℚ) (lines : List Line),
      readText (lines.map (mapG f)) = (readText lines).map (mapMesh f)) := by
  constructor
  · exact translate_zones_eq_spec
  · intro f lines
    unfold readText
    rw [List.length_map]
    have h0 : mapSt f initRSt = initRSt := rfl
    have hloop := textLoop_mapG f lines (lines.length + 1) 0 initRSt
    rw [h0] at hloop
    rw [hloop]
    cases hr : textLoop lines (lines.length + 1) 0 initRSt with
    | error e => rfl
    | ok st => exact finalize_mapSt f st

/-! ## Remaining witnesses and closed claim theorems -/

/-- Witness for C2 at concrete slot values: two distinct slots raise the
error, and extending an erroring sequence keeps the error. -/
theorem slots_error_iff_two_distinct_witness :
    (processSlots ["a", "b"] = .error .readError ↔
      ¬ ∀ x ∈ ["a", "b"], ∀ y ∈ ["a", "b"], x = y)
    ∧ processSlots (["a", "b"] ++ ["c"]) = .error .readError :=
  ⟨slots_error_iff_two_distinct.1 ["a", "b"],
   slots_error_iff_two_distinct.2 ["a", "b"] ["c"] (by rfl)⟩

/-! ## Text zone-group record boundaries (claim C4) -/

theorem mapM_intOfTok_map_i (vals : List Int) :
    (vals.map Tok.i).mapM intOfTok = .ok vals := by
  induction vals with
  | nil => rfl
  | cons v vs ih =>
    rw [List.map_cons, List.mapM_cons, ih]
    simp [intOfTok, Bind.bind, Except.bind, pure, Except.pure]

theorem isTerm_map_i (vals : List Int) (h : vals ≠ []) :
    isTerm (vals.map Tok.i) = false := by
  cases vals with
  | nil => simp at h
  | cons v vs => rfl

theorem zgLoop_run (lines : List Line) :
    ∀ (k : Nat) (vals : Nat → List Int) (fuel pos : Nat) (acc : List Int),
      k < fuel →
      (∀ j, j < k →
        lines.getD (pos + j) [] = (vals j).map Tok.i ∧ vals j ≠ []) →
      isTerm (lines.getD (pos + k) []) = true →
      zgLoop lines fuel pos pos acc =
        .ok (acc ++ ((List.range k).map vals).flatten, pos + k) := by
  intro k
  induction k with
  | zero =>
    intro vals fuel pos acc hf _ hterm
    cases fuel with
    | zero => omega
    | succ fuel =>
      rw [zgLoop_term lines fuel pos pos acc (by simpa using hterm)]
      simp
  | succ k ih =>
    intro vals fuel pos acc hf hdata hterm
    cases fuel with
    | zero => omega
    | succ fuel =>
      have h0 := hdata 0 (Nat.succ_pos k)
      rw [Nat.add_zero] at h0
      have hterm0 : isTerm (lines.getD pos []) = false := by
        rw [h0.1]
        exact isTerm_map_i _ h0.2
      rw [zgLoop_data_ok lines fuel pos pos acc (vals 0) hterm0
        (by rw [h0.1]; exact mapM_intOfTok_map_i (vals 0))]
      have hrec := ih (fun j => vals (j + 1)) fuel (pos + 1) (acc ++ vals 0)
        (by omega)
        (by
          intro j hj
          have hd := hdata (j + 1) (by omega)
          refine ⟨?_, hd.2⟩
          rw [show pos + 1 + j = pos + (j + 1) by omega]
          exact hd.1)
        (by
          rw [show pos + 1 + k = pos + (k + 1) by omega]
          exact hterm)
      rw [hrec]
      have hL : (acc ++ vals 0) ++
          ((List.range k).map (fun j => vals (j + 1))).flatten
          = acc ++ ((List.range (k + 1)).map vals).flatten := by
        rw [List.range_succ_eq_map]
        simp [List.map_map, Function.comp_def, List.append_assoc]
      have hN : pos + 1 + k = pos + (k + 1) := by omega
      rw [hL, hN]

/-- C4: reading a text zone-group record whose header line has a name
token at position 1 accumulates the whitespace-separated integer member
ids of the following lines, in order, until the first line that is empty,
starts with the comment token `*`, or starts a new `ZGROUP` header (an EOF
behaves as an empty line); the terminating line is not consumed — the
returned stream position is exactly that line's position, so the next
record begins there. -/
theorem zgroup_record_boundary (lines : List Line) (pos : Nat) (hdr : Line)
    (t1 : Tok) (k : Nat) (vals : Nat → List Int)
    (h1 : hdr.get? 1 = some t1)
    (hdata : ∀ j, j < k →
      lines.getD (pos + j) [] = (vals j).map Tok.i ∧ vals j ≠ [])
    (hterm : isTerm (lines.getD (pos + k) []) = true) :
    _read_zgroup_text lines pos hdr =
      .ok (stripQuotes (Tok.text t1),
        (if Tok.s "SLOT" ∈ hdr then (hdr.getLastD (Tok.s "")).text else ""),
        ((List.range k).map vals).flatten, pos + k) := by
  have hk : k < lines.length + 1 := by
    cases k with
    | zero => omega
    | succ k' =>
      have hd := hdata k' (by omega)
      by_contra hcon
      push_neg at hcon
      have hout : lines.length ≤ pos + k' := by omega
      have : lines.getD (pos + k') [] = [] := by
        rw [List.getD_eq_default]
        omega
      rw [this] at hd
      have hnil : vals k' = [] := by
        cases hv : vals k' with
        | nil => rfl
        | cons a l =>
          rw [hv] at hd
          simp at hd
      exact hd.2 hnil
  unfold _read_zgroup_text
  rw [h1]
  rw [zgLoop_run lines k vals (lines.length + 1) pos [] hk hdata hterm]
  simp [Bind.bind, Except.bind, pure, Except.pure]

/-- Witness for C4: a concrete group record with two member lines followed
by a comment line; the reader returns the accumulated members and stops
exactly at the comment line (position 3), leaving it unconsumed. -/
theorem zgroup_record_boundary_witness :
    _read_zgroup_text c4lines 1 c4hdr = .ok ("A", "", [1, 2, 3], 3) := by
  have h := zgroup_record_boundary c4lines 1 c4hdr (Tok.s "\"A\"") 2
    (fun j => if j = 0 then [1, 2] else [3]) rfl
    (by
      intro j hj
      interval_cases j
      · exact ⟨rfl, by decide⟩
      · exact ⟨rfl, by decide⟩)
    rfl
  rw [h]
  rfl

/-! ## The per-cell label projection crashes on ungrouped cells (claim C1) -/

/-- C1: contrary to the claim, a file with one group record and a cell in
no group does not read back with label 0 for that cell: the projection
`for cid, zid in mapper.values()` unpacks the ungrouped cell's
single-element mapper entry and raises `ValueError`, so the whole read
fails; the same file with every cell grouped reads fine, which isolates
the crash to the ungrouped cell. -/
theorem ungrouped_cell_read_crashes :
    readText c1lines = .error .valueError ∧ (readText c1linesAll).isOk = true :=
  ⟨rfl, rfl⟩

/-! ## Binary write crashes without cell data (claim C9) -/

/-- C9: contrary to the claim, the round trip is impossible in the binary
encoding for a mesh without cell data: the binary branch reads the local
variable `material` outside the `if mesh.cell_data:` block that assigns
it, so writing one supported tetrahedron with no cell data raises
`NameError` before any group section is written; the text branch writes
the very same mesh without error. -/
theorem binary_write_no_cell_data_crashes :
    write c9points c9cells [] [] true = .error .nameError ∧
      (write c9points c9cells [] [] false).isOk = true :=
  ⟨rfl, rfl⟩

/-! ## The write-time unsupported-mesh error (claim C8) -/

theorem mapM_error_mem {α β : Type} (g : α → Except Err β) :
    ∀ (l : List α) (e : Err), l.mapM g = .error e → ∃ x ∈ l, g x = .error e := by
  intro l
  induction l with
  | nil =>
    intro e h
    rw [List.mapM_nil] at h
    simp [pure, Except.pure] at h
  | cons a as ih =>
    intro e h
    rw [List.mapM_cons] at h
    cases hg : g a with
    | error e' =>
      rw [hg] at h
      simp [Bind.bind, Except.bind] at h
      exact ⟨a, by simp, by rw [hg, h]⟩
    | ok b =>
      rw [hg] at h
      cases hm : as.mapM g with
      | error e' =>
        rw [hm] at h
        simp [Bind.bind, Except.bind] at h
        obtain ⟨x, hx, hgx⟩ := ih e' hm
        exact ⟨x, by simp [hx], by rw [hgx, h]⟩
      | ok bs =>
        rw [hm] at h
        simp [Bind.bind, Except.bind, pure, Except.pure] at h

theorem write_points_error (points : List (List ℚ)) (e : Err)
    (h : _write_points points = .error e) : e = .indexError := by
  obtain ⟨x, -, hx⟩ := mapM_error_mem _ points.enum e h
  by_cases hlen : x.2.length < 3
  · simp only [if_pos hlen] at hx
    injection hx with hx
    exact hx.symm
  · simp only [if_neg hlen] at hx
    cases hx

theorem writeTextM_error (points : List (List ℚ))
    (cells : List (String × List (List Nat)))
    (cell_data : List (String × List (List Int)))
    (field_data : List (String × (Int × Int))) (e : Err)
    (h : writeTextM points cells cell_data field_data = .error e) :
    e = .indexError := by
  unfold writeTextM at h
  cases hw : _write_points points with
  | error e' =>
    rw [hw] at h
    simp [Bind.bind, Except.bind] at h
    rw [← h]
    exact write_points_error points e' hw
  | ok ptLines =>
    rw [hw] at h
    cases cell_data with
    | nil =>
      simp [Bind.bind, Except.bind, pure, Except.pure] at h
    | cons c rest =>
      simp [Bind.bind, Except.bind, _pick_first_int_data, pure,
        Except.pure] at h

theorem writeBinary_error (points : List (List ℚ))
    (cells : List (String × List (List Nat)))
    (cell_data : List (String × List (List Int)))
    (field_data : List (String × (Int × Int))) (e : Err)
    (h : writeBinary points cells cell_data field_data = .error e) :
    e = .nameError := by
  unfold writeBinary at h
  cases cell_data with
  | nil =>
    simp [Bind.bind, Except.bind, pure, Except.pure] at h
    rw [← h]
  | cons c rest =>
    simp [Bind.bind, Except.bind, _pick_first_int_data, pure,
      Except.pure] at h

theorem except_map_error_iff {α β : Type} (g : α → β) (x : Except Err α)
    (e : Err) : x.map g = .error e ↔ x = .error e := by
  cases x <;> simp [Except.map]

/-- C8: the `write` entry point raises the `WriteError` exactly when no
cell block of the mesh has a supported solid type (tetra, pyramid, wedge,
hexahedron or their higher-order variants, the keys of `meshio_only`);
when at least one supported block is present, this error is never raised —
for either encoding, whatever else the writer later does. -/
theorem write_error_iff_unsupported (points : List (List ℚ))
    (cells : List (String × List (List Nat)))
    (cell_data : List (String × List (List Int)))
    (field_data : List (String × (Int × Int))) (binary : Bool) :
    write points cells cell_data field_data binary = .error .writeError ↔
      ∀ c ∈ cells, meshio_only c.1 = none := by
  unfold write
  by_cases hany : cells.any (fun c => (meshio_only c.1).isSome)
  · rw [if_pos hany]
    constructor
    · intro h
      exfalso
      cases binary with
      | true =>
        rw [if_pos rfl] at h
        rw [except_map_error_iff] at h
        have := writeBinary_error points cells cell_data field_data _ h
        cases this
      | false =>
        rw [if_neg (by simp)] at h
        rw [except_map_error_iff] at h
        have := writeTextM_error points cells cell_data field_data _ h
        cases this
    · intro hall
      exfalso
      rw [List.any_eq_true] at hany
      obtain ⟨c, hc, hsome⟩ := hany
      rw [hall c hc] at hsome
      cases hsome
  · rw [if_neg hany]
    constructor
    · intro _ c hc
      cases hmo : meshio_only c.1 with
      | none => rfl
      | some v =>
        exact absurd (List.any_eq_true.mpr ⟨c, hc, by simp [hmo]⟩) hany
    · intro _
      rfl

/-! ## The record loop stops at the first blank line (claim C10) -/

theorem zgLoop_pos_ge (lines : List Line) :
    ∀ (fuel pos i : Nat) (acc d : List Int) (p2 : Nat),
      i ≤ pos → zgLoop lines fuel pos i acc = .ok (d, p2) → i ≤ p2 := by
  intro fuel
  induction fuel with
  | zero =>
    intro pos i acc d p2 _ h
    simp [zgLoop] at h
  | succ fuel ih =>
    intro pos i acc d p2 hip h
    cases hterm : isTerm (lines.getD pos []) with
    | true =>
      rw [zgLoop_term lines fuel pos i acc hterm] at h
      simp at h
      omega
    | false =>
      cases hm : (lines.getD pos []).mapM intOfTok with
      | error e =>
        rw [zgLoop_data_err lines fuel pos i acc e hterm hm] at h
        cases h
      | ok ns =>
        rw [zgLoop_data_ok lines fuel pos i acc ns hterm hm] at h
        have := ih (pos + 1) (pos + 1) (acc ++ ns) d p2 (le_refl _) h
        omega

theorem zgLoop_pos_le (lines : List Line) (t : Nat)
    (hT : isTerm (lines.getD t []) = true) :
    ∀ (fuel pos i : Nat) (acc d : List Int) (p2 : Nat),
      pos ≤ t → i ≤ t → zgLoop lines fuel pos i acc = .ok (d, p2) → p2 ≤ t := by
  intro fuel
  induction fuel with
  | zero =>
    intro pos i acc d p2 _ _ h
    simp [zgLoop] at h
  | succ fuel ih =>
    intro pos i acc d p2 hpt hit h
    cases hterm : isTerm (lines.getD pos []) with
    | true =>
      rw [zgLoop_term lines fuel pos i acc hterm] at h
      simp at h
      omega
    | false =>
      have hne : pos ≠ t := by
        intro he
        rw [he, hT] at hterm
        cases hterm
      cases hm : (lines.getD pos []).mapM intOfTok with
      | error e =>
        rw [zgLoop_data_err lines fuel pos i acc e hterm hm] at h
        cases h
      | ok ns =>
        rw [zgLoop_data_ok lines fuel pos i acc ns hterm hm] at h
        exact ih (pos + 1) (pos + 1) (acc ++ ns) d p2 (by omega) (by omega) h

theorem zgLoop_fuel (lines : List Line) (t : Nat)
    (hT : isTerm (lines.getD t []) = true) :
    ∀ (f1 f2 pos i : Nat) (acc : List Int),
      pos ≤ t → t - pos < f1 → t - pos < f2 →
      zgLoop lines f1 pos i acc = zgLoop lines f2 pos i acc := by
  intro f1
  induction f1 with
  | zero =>
    intro f2 pos i acc hpt h1 h2
    omega
  | succ f1 ih =>
    intro f2 pos i acc hpt h1 h2
    cases f2 with
    | zero => omega
    | succ f2 =>
      cases hterm : isTerm (lines.getD pos []) with
      | true =>
        rw [zgLoop_term lines f1 pos i acc hterm,
          zgLoop_term lines f2 pos i acc hterm]
      | false =>
        have hne : pos ≠ t := by
          intro he
          rw [he, hT] at hterm
          cases hterm
        cases hm : (lines.getD pos []).mapM intOfTok with
        | error e =>
          rw [zgLoop_data_err lines f1 pos i acc e hterm hm,
            zgLoop_data_err lines f2 pos i acc e hterm hm]
        | ok ns =>
          rw [zgLoop_data_ok lines f1 pos i acc ns hterm hm,
            zgLoop_data_ok lines f2 pos i acc ns hterm hm]
          exact ih f2 (pos + 1) (pos + 1) (acc ++ ns) (by omega) (by omega)
            (by omega)

theorem zgLoop_agree (A post : List Line) :
    ∀ (fuel pos i : Nat) (acc : List Int), pos ≤ A.length →
      zgLoop (A ++ [] :: post) fuel pos i acc = zgLoop A fuel pos i acc := by
  intro fuel
  induction fuel with
  | zero => intro pos i acc _; rfl
  | succ fuel ih =>
    intro pos i acc hpa
    by_cases hlt : pos < A.length
    · have hgd : (A ++ [] :: post).getD pos [] = A.getD pos [] :=
        List.getD_append A ([] :: post) [] pos hlt
      cases hterm : isTerm (A.getD pos []) with
      | true =>
        rw [zgLoop_term A fuel pos i acc hterm,
          zgLoop_term (A ++ [] :: post) fuel pos i acc
            (by rw [hgd]; exact hterm)]
      | false =>
        cases hm : (A.getD pos []).mapM intOfTok with
        | error e =>
          rw [zgLoop_data_err A fuel pos i acc e hterm hm,
            zgLoop_data_err (A ++ [] :: post) fuel pos i acc e
              (by rw [hgd]; exact hterm) (by rw [hgd]; exact hm)]
        | ok ns =>
          rw [zgLoop_data_ok A fuel pos i acc ns hterm hm,
            zgLoop_data_ok (A ++ [] :: post) fuel pos i acc ns
              (by rw [hgd]; exact hterm) (by rw [hgd]; exact hm)]
          exact ih (pos + 1) (pos + 1) (acc ++ ns) (by omega)
    · have hpos : pos = A.length := by omega
      subst hpos
      have h1 : (A ++ [] :: post).getD A.length [] = [] := by
        rw [List.getD_append_right]
        · simp
        · omega
      have h2 : A.getD A.length [] = [] := by
        rw [List.getD_eq_default]
        omega
      rw [zgLoop_term (A ++ [] :: post) fuel A.length i acc (by rw [h1]; rfl),
        zgLoop_term A fuel A.length i acc (by rw [h2]; rfl)]

theorem read_zgroup_pos (lines : List Line) (pos : Nat) (hdr : Line)
    (name slot : String) (data : List Int) (p2 : Nat)
    (h : _read_zgroup_text lines pos hdr = .ok (name, slot, data, p2)) :
    pos ≤ p2 ∧ ∀ t, pos ≤ t → isTerm (lines.getD t []) = true → p2 ≤ t := by
  unfold _read_zgroup_text at h
  cases hh : hdr.get? 1 with
  | none =>
    rw [hh] at h
    simp [Bind.bind, Except.bind] at h
  | some t1 =>
    rw [hh] at h
    cases hz : zgLoop lines (lines.length + 1) pos pos [] with
    | error e =>
      rw [hz] at h
      simp [Bind.bind, Except.bind] at h
    | ok dp =>
      obtain ⟨d, p'⟩ := dp
      rw [hz] at h
      simp only [Bind.bind, Except.bind, pure, Except.pure,
        Except.ok.injEq, Prod.mk.injEq] at h
      obtain ⟨-, -, -, hp⟩ := h
      subst hp
      constructor
      · exact zgLoop_pos_ge lines (lines.length + 1) pos pos [] d p'
          (le_refl pos) hz
      · intro t hpt ht
        exact zgLoop_pos_le lines t ht (lines.length + 1) pos pos [] d p'
          hpt hpt hz

theorem read_zgroup_agree (A post : List Line) (pos : Nat) (hdr : Line)
    (hpos : pos ≤ A.length) :
    _read_zgroup_text (A ++ [] :: post) pos hdr =
      _read_zgroup_text A pos hdr := by
  unfold _read_zgroup_text
  have hT1 : isTerm ((A ++ [] :: post).getD A.length []) = true := by
    rw [List.getD_append_right]
    · simp [isTerm]
    · omega
  have hz : zgLoop (A ++ [] :: post) ((A ++ [] :: post).length + 1) pos pos []
      = zgLoop A (A.length + 1) pos pos [] := by
    rw [zgLoop_fuel (A ++ [] :: post) A.length hT1
      ((A ++ [] :: post).length + 1) (A.length + 1) pos pos [] hpos
      (by simp; omega) (by omega)]
    exact zgLoop_agree A post (A.length + 1) pos pos [] hpos
  rw [hz]

theorem textLoop_fuel (lines : List Line) (t : Nat)
    (hT : lines.getD t [] = []) :
    ∀ (f1 f2 pos : Nat) (st : RSt), pos ≤ t → t - pos < f1 → t - pos < f2 →
      textLoop lines f1 pos st = textLoop lines f2 pos st := by
  intro f1
  induction f1 with
  | zero =>
    intro f2 pos st hpt h1 h2
    omega
  | succ f1 ih =>
    intro f2 pos st hpt h1 h2
    cases f2 with
    | zero => omega
    | succ f2 =>
      cases hl : lines.getD pos [] with
      | nil =>
        rw [textLoop_succ_nil lines f1 pos st hl,
          textLoop_succ_nil lines f2 pos st hl]
      | cons tok rest =>
        have hne : pos ≠ t := by
          intro he
          rw [he, hT] at hl
          cases hl
        have hlt : pos < t := lt_of_le_of_ne hpt hne
        by_cases hG : tok = Tok.s "G"
        · subst hG
          cases hr : _read_point_text (Tok.s "G" :: rest) with
          | error e =>
            rw [textLoop_G_err lines f1 pos st rest e hl hr,
              textLoop_G_err lines f2 pos st rest e hl hr]
          | ok p =>
            obtain ⟨pid, point⟩ := p
            rw [textLoop_G_ok lines f1 pos st rest pid point hl hr,
              textLoop_G_ok lines f2 pos st rest pid point hl hr]
            exact ih f2 (pos + 1) _ (by omega) (by omega) (by omega)
        · by_cases hZ : tok = Tok.s "Z"
          · subst hZ
            cases hr : _read_cell_text (Tok.s "Z" :: rest) st.point_ids with
            | error e =>
              rw [textLoop_Z_err1 lines f1 pos st rest e hl hr,
                textLoop_Z_err1 lines f2 pos st rest e hl hr]
            | ok p =>
              obtain ⟨cid, cell⟩ := p
              cases hu : _update_cells st.cells cell with
              | error e =>
                rw [textLoop_Z_err2 lines f1 pos st rest cid cell e hl hr hu,
                  textLoop_Z_err2 lines f2 pos st rest cid cell e hl hr hu]
              | ok cells =>
                rw [textLoop_Z_ok lines f1 pos st rest cid cell cells hl hr hu,
                  textLoop_Z_ok lines f2 pos st rest cid cell cells hl hr hu]
                exact ih f2 (pos + 1) _ (by omega) (by omega) (by omega)
          · by_cases hZG : tok = Tok.s "ZGROUP"
            · subst hZG
              cases hr : _read_zgroup_text lines (pos + 1)
                  (Tok.s "ZGROUP" :: rest) with
              | error e =>
                rw [textLoop_zg_err1 lines f1 pos st rest e hl hr,
                  textLoop_zg_err1 lines f2 pos st rest e hl hr]
              | ok p =>
                obtain ⟨name, slot, data, p'⟩ := p
                have hb := read_zgroup_pos lines (pos + 1)
                  (Tok.s "ZGROUP" :: rest) name slot data p' hr
                have hp1 : pos + 1 ≤ p' := hb.1
                have hp2 : p' ≤ t := hb.2 t (by omega) (by rw [hT]; rfl)
                cases hu : _update_field_data st.field_data st.mapper data
                    name (st.zidx + 1) with
                | error e =>
                  rw [textLoop_zg_err2 lines f1 pos st rest name slot data p'
                      e hl hr hu,
                    textLoop_zg_err2 lines f2 pos st rest name slot data p'
                      e hl hr hu]
                | ok q =>
                  obtain ⟨fd, mp⟩ := q
                  cases hs : _update_slots st.slots slot with
                  | error e =>
                    rw [textLoop_zg_err3 lines f1 pos st rest name slot data
                        p' fd mp e hl hr hu hs,
                      textLoop_zg_err3 lines f2 pos st rest name slot data
                        p' fd mp e hl hr hu hs]
                  | ok slots =>
                    rw [textLoop_zg_ok lines f1 pos st rest name slot data p'
                        fd mp slots hl hr hu hs,
                      textLoop_zg_ok lines f2 pos st rest name slot data p'
                        fd mp slots hl hr hu hs]
                    exact ih f2 p' _ (by omega) (by omega) (by omega)
            · rw [textLoop_succ_skip lines f1 pos st tok rest hl hG hZ hZG,
                textLoop_succ_skip lines f2 pos st tok rest hl hG hZ hZG]
              exact ih f2 (pos + 1) st (by omega) (by omega) (by omega)

theorem textLoop_agree (A post : List Line) :
    ∀ (fuel pos : Nat) (st : RSt), pos ≤ A.length →
      textLoop (A ++ [] :: post) fuel pos st = textLoop A fuel pos st := by
  intro fuel
  induction fuel with
  | zero => intro pos st _; rfl
  | succ fuel ih =>
    intro pos st hpa
    by_cases hlt : pos < A.length
    · have hgd : (A ++ [] :: post).getD pos [] = A.getD pos [] :=
        List.getD_append A ([] :: post) [] pos hlt
      cases hl : A.getD pos [] with
      | nil =>
        rw [textLoop_succ_nil A fuel pos st hl,
          textLoop_succ_nil (A ++ [] :: post) fuel pos st (hgd.trans hl)]
      | cons tok rest =>
        have hl' : (A ++ [] :: post).getD pos [] = tok :: rest := hgd.trans hl
        by_cases hG : tok = Tok.s "G"
        · subst hG
          cases hr : _read_point_text (Tok.s "G" :: rest) with
          | error e =>
            rw [textLoop_G_err A fuel pos st rest e hl hr,
              textLoop_G_err (A ++ [] :: post) fuel pos st rest e hl' hr]
          | ok p =>
            obtain ⟨pid, point⟩ := p
            rw [textLoop_G_ok A fuel pos st rest pid point hl hr,
              textLoop_G_ok (A ++ [] :: post) fuel pos st rest pid point
                hl' hr]
            exact ih (pos + 1) _ (by omega)
        · by_cases hZ : tok = Tok.s "Z"
          · subst hZ
            cases hr : _read_cell_text (Tok.s "Z" :: rest) st.point_ids with
            | error e =>
              rw [textLoop_Z_err1 A fuel pos st rest e hl hr,
                textLoop_Z_err1 (A ++ [] :: post) fuel pos st rest e hl' hr]
            | ok p =>
              obtain ⟨cid, cell⟩ := p
              cases hu : _update_cells st.cells cell with
              | error e =>
                rw [textLoop_Z_err2 A fuel pos st rest cid cell e hl hr hu,
                  textLoop_Z_err2 (A ++ [] :: post) fuel pos st rest cid cell
                    e hl' hr hu]
              | ok cells =>
                rw [textLoop_Z_ok A fuel pos st rest cid cell cells hl hr hu,
                  textLoop_Z_ok (A ++ [] :: post) fuel pos st rest cid cell
                    cells hl' hr hu]
                exact ih (pos + 1) _ (by omega)
          · by_cases hZG : tok = Tok.s "ZGROUP"
            · subst hZG
              have hrz : _read_zgroup_text (A ++ [] :: post) (pos + 1)
                  (Tok.s "ZGROUP" :: rest)
                  = _read_zgroup_text A (pos + 1) (Tok.s "ZGROUP" :: rest) :=
                read_zgroup_agree A post (pos + 1) (Tok.s "ZGROUP" :: rest)
                  (by omega)
              cases hr : _read_zgroup_text A (pos + 1)
                  (Tok.s "ZGROUP" :: rest) with
              | error e =>
                rw [textLoop_zg_err1 A fuel pos st rest e hl hr,
                  textLoop_zg_err1 (A ++ [] :: post) fuel pos st rest e hl'
                    (hrz.trans hr)]
              | ok p =>
                obtain ⟨name, slot, data, p'⟩ := p
                have hb := read_zgroup_pos A (pos + 1)
                  (Tok.s "ZGROUP" :: rest) name slot data p' hr
                have hp2 : p' ≤ A.length := hb.2 A.length (by omega)
                  (by rw [List.getD_eq_default] <;> [rfl; omega])
                cases hu : _update_field_data st.field_data st.mapper data
                    name (st.zidx + 1) with
                | error e =>
                  rw [textLoop_zg_err2 A fuel pos st rest name slot data p'
                      e hl hr hu,
                    textLoop_zg_err2 (A ++ [] :: post) fuel pos st rest name
                      slot data p' e hl' (hrz.trans hr) hu]
                | ok q =>
                  obtain ⟨fd, mp⟩ := q
                  cases hs : _update_slots st.slots slot with
                  | error e =>
                    rw [textLoop_zg_err3 A fuel pos st rest name slot data p'
                        fd mp e hl hr hu hs,
                      textLoop_zg_err3 (A ++ [] :: post) fuel pos st rest
                        name slot data p' fd mp e hl' (hrz.trans hr) hu hs]
                  | ok slots =>
                    rw [textLoop_zg_ok A fuel pos st rest name slot data p'
                        fd mp slots hl hr hu hs,
                      textLoop_zg_ok (A ++ [] :: post) fuel pos st rest name
                        slot data p' fd mp slots hl' (hrz.trans hr) hu hs]
                    exact ih p' _ hp2
            · rw [textLoop_succ_skip A fuel pos st tok rest hl hG hZ hZG,
                textLoop_succ_skip (A ++ [] :: post) fuel pos st tok rest hl'
                  hG hZ hZG]
              exact ih (pos + 1) st (by omega)
    · have hpos : pos = A.length := by omega
      subst hpos
      have h1 : (A ++ [] :: post).getD A.length [] = [] := by
        rw [List.getD_append_right]
        · simp
        · omega
      have h2 : A.getD A.length [] = [] := by
        rw [List.getD_eq_default]
        omega
      rw [textLoop_succ_nil (A ++ [] :: post) fuel A.length st h1,
        textLoop_succ_nil A fuel A.length st h2]

theorem dropWhile_head_not {α : Type} (p : α → Bool) :
    ∀ (l : List α) (x : α) (xs : List α),
      l.dropWhile p = x :: xs → p x = false := by
  intro l
  induction l with
  | nil =>
    intro x xs h
    cases h
  | cons a as ih =>
    intro x xs h
    rw [List.dropWhile_cons] at h
    by_cases hpa : p a = true
    · rw [if_pos hpa] at h
      exact ih x xs h
    · rw [if_neg hpa] at h
      injection h with h1 _
      rw [← h1]
      exact Bool.eq_false_iff.mpr hpa

/-- C10: the top-level record loop of the ASCII reader stops at the first
line with no tokens — reading a file is the same as reading its prefix
before the first blank line, so every record after that line is silently
ignored (first conjunct); and a nonempty line whose first token is none of
the markers `G`, `Z`, `ZGROUP` is skipped without error: the loop simply
moves to the next line with the state unchanged (second conjunct). -/
theorem read_stops_at_blank_line :
    (∀ lines : List Line,
      readText lines = readText (lines.takeWhile (fun l => !l.isEmpty)))
    ∧ (∀ (lines : List Line) (fuel pos : Nat) (st : RSt) (t : Tok)
        (rest : List Tok),
      lines.getD pos [] = t :: rest →
      t ≠ Tok.s "G" → t ≠ Tok.s "Z" → t ≠ Tok.s "ZGROUP" →
      textLoop lines (fuel + 1) pos st = textLoop lines fuel (pos + 1) st) := by
  constructor
  · intro lines
    have hsplit : lines.takeWhile (fun l => !l.isEmpty)
        ++ lines.dropWhile (fun l => !l.isEmpty) = lines :=
      List.takeWhile_append_dropWhile (fun l => !l.isEmpty) lines
    cases hdw : lines.dropWhile (fun l => !l.isEmpty) with
    | nil =>
      rw [hdw, List.append_nil] at hsplit
      rw [hsplit]
    | cons r rs =>
      have hr0 : r = [] := by
        have hpr := dropWhile_head_not (fun l => !l.isEmpty) lines r rs hdw
        simpa using hpr
      subst hr0
      rw [hdw] at hsplit
      conv_lhs => rw [← hsplit]
      generalize lines.takeWhile (fun l => !l.isEmpty) = A
      unfold readText
      have hgd : (A ++ [] :: rs).getD A.length [] = [] := by
        rw [List.getD_append_right]
        · simp
        · omega
      have hlen : (A ++ [] :: rs).length = A.length + (rs.length + 1) := by
        simp
      rw [textLoop_fuel (A ++ [] :: rs) A.length hgd
        ((A ++ [] :: rs).length + 1) (A.length + 1) 0 initRSt (by omega)
        (by omega) (by omega)]
      rw [textLoop_agree A rs (A.length + 1) 0 initRSt (by omega)]
  · intro lines fuel pos st t rest h hG hZ hZG
    exact textLoop_succ_skip lines fuel pos st t rest h hG hZ hZG

/-- Witness for C10: a concrete file whose records after the blank line
are ignored, and a concrete unrecognized line that is skipped. -/
theorem read_stops_at_blank_line_witness :
    readText [[Tok.s "FOO"], [], [Tok.s "G", Tok.i 1, Tok.i 0, Tok.i 0,
      Tok.i 0]] = readText [[Tok.s "FOO"]] ∧
    textLoop [[Tok.s "FOO"]] 3 0 initRSt = textLoop [[Tok.s "FOO"]] 2 1 initRSt := by
  constructor
  · have h := read_stops_at_blank_line.1
      [[Tok.s "FOO"], [], [Tok.s "G", Tok.i 1, Tok.i 0, Tok.i 0, Tok.i 0]]
    rw [h]
    rfl
  · exact read_stops_at_blank_line.2 [[Tok.s "FOO"]] 2 0 initRSt (Tok.s "FOO")
      [] rfl (by decide) (by decide) (by decide)

end Flac3d
